import Mathlib

/-!
# Fission declarative specs: a shallow embedding of `fission/spec.go`

The development follows the source file top to bottom:

* the data model (`ObjectMeta`, `Archive`, `FissionResources`, ...);
* the ownership helpers `mapKey`, `applyDeploymentConfig`, `hasDeploymentConfig`;
* the per-kind reconcile routine (`applyEnvironments` and its six copies, which are the
  same text up to the resource kind and are embedded once as `applyKind`);
* the archive pipeline `localArchiveFromSpec` / `applyArchives`;
* the orchestrator `apply`.

Go maps are association lists in which a key is bound at most once by `mapPut`, and the
order in which a `range` visits one is a parameter (`MapRange`); a Go byte slice is an
optional list, `none` being nil; the control-plane client is a record of state-passing
functions over an arbitrary server state `σ`; every client call the code makes is
appended to a call log, which is the only instrumentation added to the code.
-/

namespace Fission

/-! ## Go maps -/

/-- A Go `map[string]α`: an association list. `nil` maps are `Option (GoMap α)`. -/
abbrev GoMap (α : Type) := List (String × α)

/-- The Go lookup `v, ok := m[k]`: `some v` when `ok`, `none` otherwise. -/
def mapGet {α : Type} : GoMap α → String → Option α
  | [], _ => none
  | (k', v) :: rest, k => if k' = k then some v else mapGet rest k

/-- The Go assignment `m[k] = v`: rebinds `k` where it is bound, binds it otherwise. -/
def mapPut {α : Type} : GoMap α → String → α → GoMap α
  | [], k, v => [(k, v)]
  | (k', v') :: rest, k, v =>
    if k' = k then (k, v) :: rest else (k', v') :: mapPut rest k v

/-! ## Data model -/

/-- The fields of `metav1.ObjectMeta` the code reads or writes, and some it never looks at. -/
structure ObjectMeta where
  Name : String
  Namespace : String
  UID : String
  ResourceVersion : String
  Labels : Option (GoMap String)
  Annotations : Option (GoMap String)
deriving DecidableEq, Repr

/-- The Go zero value of `metav1.ObjectMeta`. -/
def ObjectMeta.zero : ObjectMeta :=
  { Name := "", Namespace := "", UID := "", ResourceVersion := "",
    Labels := none, Annotations := none }

instance : Inhabited ObjectMeta := ⟨ObjectMeta.zero⟩

/-- Modelled from the spec: the type `DeploymentConfig` is declared outside `spec.go`;
its three fields are the ones `specInit` fills in. -/
structure DeploymentConfig where
  Kind : String
  Name : String
  UID : String
deriving DecidableEq, Repr

instance : Inhabited DeploymentConfig := ⟨⟨"", "", ""⟩⟩

/-- Modelled from the spec: the type `ArchiveUploadSpec` is declared outside `spec.go`. -/
structure ArchiveUploadSpec where
  Name : String
  RootDir : String
  IncludeGlobs : List String
  ExcludeGlobs : List String
deriving DecidableEq, Repr

/-- The checksum `fission.Checksum` of an archive (`Type_` is the Go field `Type`). -/
structure Checksum where
  Type_ : String
  Sum : String
deriving DecidableEq, Repr

/-- Modelled from the spec: the archive type constant `fission.ArchiveTypeLiteral`. -/
def ArchiveTypeLiteral : String := "literal"

/-- Modelled from the spec: the archive type constant `fission.ArchiveTypeUrl`. -/
def ArchiveTypeUrl : String := "url"

/-- The archive `fission.Archive`: inline bytes or a URL with a checksum (`Type_` is the
Go field `Type`). `Literal` is a Go `[]byte`: `none` is the nil slice and `some []` the
empty one, which `reflect.DeepEqual` tells apart. -/
structure Archive where
  Type_ : String
  Literal : Option (List UInt8)
  URL : String
  Checksum : Checksum
deriving DecidableEq, Repr

/-- The Go zero value of `fission.Archive`. -/
def Archive.zero : Archive :=
  { Type_ := "", Literal := none, URL := "", Checksum := ⟨"", ""⟩ }

instance : Inhabited Archive := ⟨Archive.zero⟩

/-- The spec of a package: the two archives `applyArchives` walks, and the rest of the
payload, which the code only compares. -/
structure PackageSpec (S : Type) where
  Source : Archive
  Deployment : Archive
  rest : S
deriving DecidableEq, Repr

instance {S : Type} [Inhabited S] : Inhabited (PackageSpec S) :=
  ⟨⟨Archive.zero, Archive.zero, default⟩⟩

/-- A resource of one kind (`crd.Environment`, `crd.Package`, ...): type meta, metadata and
a spec of type `T`. `default : T` stands for the Go zero value of the spec type. -/
structure Resource (T : Type) where
  Kind : String
  Metadata : ObjectMeta
  Spec : T
deriving DecidableEq, Repr

/-- The Go zero value of a resource, as `make([]crd.Environment, 1)` produces it. -/
def Resource.zero {T : Type} [Inhabited T] : Resource T :=
  { Kind := "", Metadata := ObjectMeta.zero, Spec := default }

/-- The resource set `FissionResources`. The part of every spec that `spec.go` never
inspects is a payload of type `S`. -/
structure FissionResources (S : Type) where
  deploymentConfig : DeploymentConfig
  packages : List (Resource (PackageSpec S))
  functions : List (Resource S)
  environments : List (Resource S)
  httpTriggers : List (Resource S)
  kubernetesWatchTriggers : List (Resource S)
  timeTriggers : List (Resource S)
  messageQueueTriggers : List (Resource S)
  archiveUploadSpecs : List ArchiveUploadSpec

/-- The constant `ARCHIVE_URL_PREFIX`. -/
def ARCHIVE_URL_PREFIX : String := "archive://"

/-- Modelled from the spec: the annotation key constant `FISSION_DEPLOYMENT_NAME_KEY`,
declared outside `spec.go`. -/
def FISSION_DEPLOYMENT_NAME_KEY : String := "fission-deployment-name"

/-- Modelled from the spec: the annotation key constant `FISSION_DEPLOYMENT_UID_KEY`,
declared outside `spec.go`. -/
def FISSION_DEPLOYMENT_UID_KEY : String := "fission-deployment-uid"

/-! ## Ownership helpers -/

/-- The key `fmt.Sprintf("%v:%v", m.Namespace, m.Name)`. -/
def mapKey (m : ObjectMeta) : String :=
  m.Namespace ++ ":" ++ m.Name

/-- The stamp `applyDeploymentConfig`; the metadata it leaves behind is the result. -/
def applyDeploymentConfig {S : Type} (m : ObjectMeta) (fr : FissionResources S) : ObjectMeta :=
  let annotations : GoMap String :=
    match m.Annotations with
    | none => []
    | some a => a
  let annotations := mapPut annotations FISSION_DEPLOYMENT_NAME_KEY fr.deploymentConfig.Name
  let annotations := mapPut annotations FISSION_DEPLOYMENT_UID_KEY fr.deploymentConfig.UID
  { m with Annotations := some annotations }

/-- The ownership test `hasDeploymentConfig`. -/
def hasDeploymentConfig {S : Type} (m : ObjectMeta) (fr : FissionResources S) : Bool :=
  match m.Annotations with
  | none => false
  | some annotations =>
    match mapGet annotations FISSION_DEPLOYMENT_UID_KEY with
    | some uid => if uid = fr.deploymentConfig.UID then true else false
    | none => false

/-! ## The control-plane client and the call log -/

/-- The client operations of one resource kind (`EnvironmentList`, `EnvironmentCreate`,
`EnvironmentUpdate`, `EnvironmentDelete`, ...) over a server state `σ`. An `error` result
is a non-nil Go `error`; `delete` returns `some e` for a non-nil error. -/
structure KindClient (σ T : Type) where
  list : σ → Except String (List (Resource T)) × σ
  create : Resource T → σ → Except String ObjectMeta × σ
  update : Resource T → σ → Except String ObjectMeta × σ
  delete : ObjectMeta → σ → Option String × σ

/-- One client call of a reconcile routine, with the argument it was given. -/
inductive Call (T : Type) where
  | list : Call T
  | create : Resource T → Call T
  | update : Resource T → Call T
  | delete : ObjectMeta → Call T
deriving DecidableEq, Repr

/-- The local variables of a reconcile routine, the server state and the two logs
(client calls, lines printed). -/
structure ApplyState (σ T : Type) where
  client : σ
  calls : List (Call T)
  output : List String
  metadataMap : GoMap ObjectMeta
  desired : GoMap Bool
  numCreated : Nat
  numUpdated : Nat
  numDeleted : Nat

/-- What a reconcile routine returns (`metadataMap` is `none` for Go `nil`, `err` is
`none` for a nil error), with the server state and the logs at that point. -/
structure ApplyResult (σ T : Type) where
  metadataMap : Option (GoMap ObjectMeta)
  err : Option String
  client : σ
  calls : List (Call T)
  output : List String

/-! ## The per-kind reconcile routine -/

/-- The loop `for _, o := range fr.environments` ("create or update desired state").
It returns `some err` where the Go code returns `nil, err`. -/
def applyDesired {σ S T : Type} [DecidableEq T] (kc : KindClient σ T) (fr : FissionResources S)
    (existent : GoMap (Resource T)) :
    List (Resource T) → ApplyState σ T → Option String × ApplyState σ T
  | [], s => (none, s)
  | o :: rest, s =>
    -- apply deploymentConfig so we can find our objects on future apply invocations
    let o : Resource T := { o with Metadata := applyDeploymentConfig o.Metadata fr }
    -- index desired state
    let s := { s with desired := mapPut s.desired (mapKey o.Metadata) true }
    -- exists?
    match mapGet existent (mapKey o.Metadata) with
    | some existingObj =>
      if existingObj.Spec = o.Spec then
        -- nothing to do on the server
        applyDesired kc fr existent rest
          { s with metadataMap := mapPut s.metadataMap (mapKey o.Metadata) existingObj.Metadata }
      else
        -- update
        match kc.update o s.client with
        | (Except.error err, c) =>
          (some err, { s with client := c, calls := s.calls ++ [Call.update o] })
        | (Except.ok newmeta, c) =>
          applyDesired kc fr existent rest
            { s with client := c, calls := s.calls ++ [Call.update o],
                     numUpdated := s.numUpdated + 1,
                     metadataMap := mapPut s.metadataMap (mapKey o.Metadata) newmeta }
    | none =>
      -- create
      match kc.create o s.client with
      | (Except.error err, c) =>
        (some err, { s with client := c, calls := s.calls ++ [Call.create o] })
      | (Except.ok newmeta, c) =>
        applyDesired kc fr existent rest
          { s with client := c, calls := s.calls ++ [Call.create o],
                   numCreated := s.numCreated + 1,
                   metadataMap := mapPut s.metadataMap (mapKey o.Metadata) newmeta }

/-- The loop `for _, o := range objs` under `if delete`. -/
def applyDeletes {σ T : Type} (kc : KindClient σ T) :
    List (Resource T) → ApplyState σ T → Option String × ApplyState σ T
  | [], s => (none, s)
  | o :: rest, s =>
    match mapGet s.desired (mapKey o.Metadata) with
    | some _ => applyDeletes kc rest s
    | none =>
      match kc.delete o.Metadata s.client with
      | (some err, c) =>
        (some err, { s with client := c, calls := s.calls ++ [Call.delete o.Metadata] })
      | (none, c) =>
        applyDeletes kc rest
          { s with client := c, calls := s.calls ++ [Call.delete o.Metadata],
                   numDeleted := s.numDeleted + 1,
                   output := s.output ++
                     ["Deleted " ++ o.Kind ++ " " ++ o.Metadata.Namespace ++ "/" ++
                       o.Metadata.Name ++ "\n"] }

/-- The list `objs`: a slice made with length 1, to which the owned resources of the
server listing are appended. -/
def ownedObjs {S T : Type} [Inhabited T] (fr : FissionResources S)
    (allObjs : List (Resource T)) : List (Resource T) :=
  [Resource.zero] ++ allObjs.filter (fun o => hasDeploymentConfig o.Metadata fr)

/-- The index `existent`, filled in the order of `objs`. -/
def indexObjs {T : Type} (objs : List (Resource T)) : GoMap (Resource T) :=
  objs.foldl (fun existent obj => mapPut existent (mapKey obj.Metadata) obj) []

/-- The summary line printed at the end of a reconcile routine. -/
def summaryLine {σ T : Type} (label : String) (s : ApplyState σ T) : String :=
  if s.numCreated ≠ 0 ∨ s.numUpdated ≠ 0 ∨ s.numDeleted ≠ 0 then
    label ++ ": " ++ toString s.numCreated ++ " created, " ++ toString s.numUpdated ++
      " updated, " ++ toString s.numDeleted ++ " deleted\n"
  else
    label ++ ": no changes needed\n"

/-- The reconcile routine of one kind: the body shared by `applyPackages`,
`applyFunctions`, `applyEnvironments`, `applyHTTPTriggers`, `applyKubernetesWatchTriggers`,
`applyTimeTriggers` and `applyMessageQueueTriggers`. `declared` is the list of `fr` the
routine ranges over, `label` the name it prints. -/
def applyKind {σ S T : Type} [DecidableEq T] [Inhabited T] (kc : KindClient σ T)
    (label : String) (declared : List (Resource T)) (fr : FissionResources S)
    (delete : Bool) (st : σ) : ApplyResult σ T :=
  -- get list
  match kc.list st with
  | (Except.error err, c) =>
    { metadataMap := none, err := some err, client := c, calls := [Call.list], output := [] }
  | (Except.ok allObjs, c) =>
    -- filter
    let objs := ownedObjs fr allObjs
    -- index
    let existent := indexObjs objs
    let s : ApplyState σ T :=
      { client := c, calls := [Call.list], output := [], metadataMap := [], desired := [],
        numCreated := 0, numUpdated := 0, numDeleted := 0 }
    -- create or update desired state
    match applyDesired kc fr existent declared s with
    | (some err, s) =>
      { metadataMap := none, err := some err, client := s.client, calls := s.calls,
        output := s.output }
    | (none, s) =>
      -- deletes
      match (if delete then applyDeletes kc objs s else (none, s)) with
      | (some err, s) =>
        { metadataMap := none, err := some err, client := s.client, calls := s.calls,
          output := s.output }
      | (none, s) =>
        { metadataMap := some s.metadataMap, err := none, client := s.client,
          calls := s.calls, output := s.output ++ [summaryLine label s] }

/-- The seven kinds and the archive upload of the control-plane client
(`client.Client`), over one server state `σ`. `createArchive` is the upload helper the
code calls as `createArchive(fclient, ar.URL)`; it has no error result. -/
structure Client (σ S : Type) where
  packages : KindClient σ (PackageSpec S)
  functions : KindClient σ S
  environments : KindClient σ S
  httpTriggers : KindClient σ S
  watches : KindClient σ S
  timeTriggers : KindClient σ S
  messageQueueTriggers : KindClient σ S
  createArchive : String → σ → Archive × σ

/-- The reconcile `applyPackages`. -/
def applyPackages {σ S : Type} [DecidableEq S] [Inhabited S] (fclient : Client σ S)
    (fr : FissionResources S) (delete : Bool) (st : σ) : ApplyResult σ (PackageSpec S) :=
  applyKind fclient.packages "Packages" fr.packages fr delete st

/-- The reconcile `applyFunctions`. -/
def applyFunctions {σ S : Type} [DecidableEq S] [Inhabited S] (fclient : Client σ S)
    (fr : FissionResources S) (delete : Bool) (st : σ) : ApplyResult σ S :=
  applyKind fclient.functions "Functions" fr.functions fr delete st

/-- The reconcile `applyEnvironments`. -/
def applyEnvironments {σ S : Type} [DecidableEq S] [Inhabited S] (fclient : Client σ S)
    (fr : FissionResources S) (delete : Bool) (st : σ) : ApplyResult σ S :=
  applyKind fclient.environments "Environments" fr.environments fr delete st

/-- The reconcile `applyHTTPTriggers`. -/
def applyHTTPTriggers {σ S : Type} [DecidableEq S] [Inhabited S] (fclient : Client σ S)
    (fr : FissionResources S) (delete : Bool) (st : σ) : ApplyResult σ S :=
  applyKind fclient.httpTriggers "HTTPTriggers" fr.httpTriggers fr delete st

/-- The reconcile `applyKubernetesWatchTriggers`. -/
def applyKubernetesWatchTriggers {σ S : Type} [DecidableEq S] [Inhabited S]
    (fclient : Client σ S) (fr : FissionResources S) (delete : Bool) (st : σ) :
    ApplyResult σ S :=
  applyKind fclient.watches "KubernetesWatchTriggers" fr.kubernetesWatchTriggers fr delete st

/-- The reconcile `applyTimeTriggers`. -/
def applyTimeTriggers {σ S : Type} [DecidableEq S] [Inhabited S] (fclient : Client σ S)
    (fr : FissionResources S) (delete : Bool) (st : σ) : ApplyResult σ S :=
  applyKind fclient.timeTriggers "TimeTriggers" fr.timeTriggers fr delete st

/-- The reconcile `applyMessageQueueTriggers`. -/
def applyMessageQueueTriggers {σ S : Type} [DecidableEq S] [Inhabited S]
    (fclient : Client σ S) (fr : FissionResources S) (delete : Bool) (st : σ) :
    ApplyResult σ S :=
  applyKind fclient.messageQueueTriggers "MessageQueueTriggers" fr.messageQueueTriggers fr
    delete st

/-! ## Archives -/

/-- The local machine as `localArchiveFromSpec` sees it: path cleaning, globbing, the
temporary file and zip it makes, and the helpers `fileSize`, `getContents` and
`fileChecksum` applied to the finished artifact. `ArchiveLiteralSizeLimit` is the
constant `fission.ArchiveLiteralSizeLimit`, declared outside `spec.go`. -/
structure LocalFiles where
  clean : String → String
  glob : String → Except String (List String)
  tempFile : String → Except String String
  zipMake : String → List String → Option String
  fileSize : String → Int
  getContents : String → Option (List UInt8)
  fileChecksum : String → Except String Checksum
  ArchiveLiteralSizeLimit : Int

/-- The loop over `aus.IncludeGlobs` that collects the matched files. -/
def globFiles (fs : LocalFiles) (rootDir : String) :
    List String → List String → Except String (List String)
  | [], files => Except.ok files
  | relativeGlob :: rest, files =>
    let absGlob := rootDir ++ "/" ++ relativeGlob
    match fs.glob absGlob with
    | Except.error err => Except.error err
    | Except.ok f => globFiles fs rootDir rest (files ++ f)

/-- The builder `localArchiveFromSpec`. -/
def localArchiveFromSpec (fs : LocalFiles) (specDir : String) (aus : ArchiveUploadSpec) :
    Except String Archive :=
  -- get root dir
  let rootDir := if aus.RootDir.length = 0 then fs.clean (specDir ++ "/..") else aus.RootDir
  -- get a list of files from the include/exclude globs
  match globFiles fs rootDir aus.IncludeGlobs [] with
  | Except.error err => Except.error err
  | Except.ok files =>
    if files.length = 0 then
      Except.error ("Archive \x27" ++ aus.Name ++ "\x27 is empty")
    else
      -- if it's just one file, use its path directly
      let named : Except String String :=
        match files with
        | [file] => Except.ok file
        | _ =>
          -- zip up the file list
          match fs.tempFile ("fission-archive-" ++ aus.Name) with
          | Except.error err => Except.error err
          | Except.ok archiveFileName =>
            match fs.zipMake archiveFileName files with
            | some err => Except.error err
            | none => Except.ok archiveFileName
      match named with
      | Except.error err => Except.error err
      | Except.ok archiveFileName =>
        -- figure out if we're making a literal or a URL-based archive
        if fs.fileSize archiveFileName < fs.ArchiveLiteralSizeLimit then
          let contents := fs.getContents archiveFileName
          Except.ok { Type_ := ArchiveTypeLiteral, Literal := contents, URL := "",
                      Checksum := ⟨"", ""⟩ }
        else
          -- checksum
          match fs.fileChecksum archiveFileName with
          | Except.error err =>
            Except.error ("failed to calculate archive checksum for " ++ aus.Name ++ " (" ++
              archiveFileName ++ "): " ++ err)
          | Except.ok csum =>
            -- archive object
            Except.ok { Type_ := ArchiveTypeUrl, Literal := none, URL := archiveFileName,
                        Checksum := csum }

/-- The test `strings.HasPrefix(s, p)`. -/
def HasPrefix (s p : String) : Bool :=
  p.data.isPrefixOf s.data

/-- The call `strings.TrimPrefix(s, p)`. -/
def TrimPrefix (s p : String) : String :=
  if HasPrefix s p then String.mk (s.data.drop p.data.length) else s

/-- The order in which one `range` over the Go map `archiveFiles` visits its entries:
some rearrangement of the entries, which Go leaves open. -/
structure MapRange where
  order : List (String × Archive) → List (String × Archive)
  perm : ∀ m, (order m).Perm m

/-- One client call of `applyArchives`. -/
inductive ArchiveCall where
  | packageList : ArchiveCall
  | createArchive : String → ArchiveCall
deriving DecidableEq, Repr

/-- The local variables of `applyArchives` while it uploads, the server state and the
two logs. -/
structure ArchiveState (σ : Type) where
  client : σ
  calls : List ArchiveCall
  output : List String
  archiveFiles : GoMap Archive

/-- What `applyArchives` returns (`err`), the resource set it leaves behind (`fr`), its
map `archiveFiles` at that point, the server state and the two logs. -/
structure ArchivesResult (σ S : Type) where
  err : Option String
  fr : FissionResources S
  archiveFiles : GoMap Archive
  client : σ
  calls : List ArchiveCall
  output : List String

/-- The loop "create archives locally and calculate checksums". -/
def buildArchives (fs : LocalFiles) (specDir : String) :
    List ArchiveUploadSpec → GoMap Archive → Except String (GoMap Archive)
  | [], archiveFiles => Except.ok archiveFiles
  | aus :: rest, archiveFiles =>
    match localArchiveFromSpec fs specDir aus with
    | Except.error err => Except.error err
    | Except.ok ar =>
      let archiveUrl := ARCHIVE_URL_PREFIX ++ aus.Name
      buildArchives fs specDir rest (mapPut archiveFiles archiveUrl ar)

/-- The inner loop over `[]fission.Archive{pkg.Spec.Source, pkg.Spec.Deployment}` that
fills the content index `availableArchives`. -/
def indexArchives : List Archive → GoMap String → GoMap String
  | [], availableArchives => availableArchives
  | ar :: rest, availableArchives =>
    if ar.Type_ = ArchiveTypeUrl ∧ ar.URL.length > 0 then
      indexArchives rest (mapPut availableArchives ar.Checksum.Sum ar.URL)
    else
      indexArchives rest availableArchives

/-- The loop over the server-side packages that builds `availableArchives`. -/
def indexPackages {S : Type} :
    List (Resource (PackageSpec S)) → GoMap String → GoMap String
  | [], availableArchives => availableArchives
  | pkg :: rest, availableArchives =>
    indexPackages rest (indexArchives [pkg.Spec.Source, pkg.Spec.Deployment] availableArchives)

/-- The loop "upload archives that we need to, updating the map", over the entries of
`archiveFiles` in the order in which the `range` visits them. In the branch "exists
already" the code assigns to `a.URL`, where `a` is a copy of the map entry: the map is
not changed. -/
def uploadArchives {σ S : Type} (fclient : Client σ S) (availableArchives : GoMap String) :
    List (String × Archive) → ArchiveState σ → ArchiveState σ
  | [], s => s
  | (name, ar) :: rest, s =>
    if ar.Type_ = ArchiveTypeLiteral then
      uploadArchives fclient availableArchives rest s
    else
      -- does the archive exist already?
      match mapGet availableArchives ar.Checksum.Sum with
      | some url =>
        let a : Archive := (mapGet s.archiveFiles name).getD Archive.zero
        let _a : Archive := { a with URL := url }
        uploadArchives fclient availableArchives rest
          { s with output := s.output ++ ["archive " ++ name ++ " exists, not uploading\n"] }
      | none =>
        -- doesn't exist, upload
        match fclient.createArchive ar.URL s.client with
        | (uploadedAr, c) =>
          uploadArchives fclient availableArchives rest
            { s with client := c, calls := s.calls ++ [ArchiveCall.createArchive ar.URL],
                     output := s.output ++ ["uploading archive " ++ name ++ "\n"],
                     archiveFiles := mapPut s.archiveFiles name uploadedAr }

/-- The inner loop of "resolve references to urls in packages to be applied" over
`[]fission.Archive{pkg.Spec.Source, pkg.Spec.Deployment}`. The loop variable `ar` is a
copy of the archive, and the four assignments to `ar.Type`, `ar.Literal`, `ar.URL` and
`ar.Checksum` write to that copy: nothing of them is left when the iteration ends, so
the loop yields only the error, if any. -/
def resolveArchives (archiveFiles : GoMap Archive) : List Archive → Option String
  | [] => none
  | ar :: rest =>
    if ar.Type_ = ArchiveTypeUrl then
      if HasPrefix ar.URL ARCHIVE_URL_PREFIX then
        match mapGet archiveFiles ar.URL with
        | none => some ("Unknown archive name " ++ TrimPrefix ar.URL ARCHIVE_URL_PREFIX)
        | some availableAr =>
          let _ar : Archive :=
            { ar with Type_ := availableAr.Type_, Literal := availableAr.Literal,
                      URL := availableAr.URL, Checksum := availableAr.Checksum }
          resolveArchives archiveFiles rest
      else resolveArchives archiveFiles rest
    else resolveArchives archiveFiles rest

/-- The loop `for _, pkg := range fr.packages`; `pkg` is a copy of the slice element. -/
def resolvePackages {S : Type} (archiveFiles : GoMap Archive) :
    List (Resource (PackageSpec S)) → Option String
  | [] => none
  | pkg :: rest =>
    match resolveArchives archiveFiles [pkg.Spec.Source, pkg.Spec.Deployment] with
    | some err => some err
    | none => resolvePackages archiveFiles rest

/-- The routine `applyArchives`. No statement of it assigns to a field of `fr` or to an
element of `fr.packages`, so the resource set it leaves behind is the one it was given. -/
def applyArchives {σ S : Type} (fclient : Client σ S) (fs : LocalFiles) (range : MapRange)
    (specDir : String) (fr : FissionResources S) (st : σ) : ArchivesResult σ S :=
  -- create archives locally and calculate checksums
  match buildArchives fs specDir fr.archiveUploadSpecs [] with
  | Except.error err =>
    { err := some err, fr := fr, archiveFiles := [], client := st, calls := [], output := [] }
  | Except.ok archiveFiles =>
    -- get list of packages, make content-indexed map of available archives
    match fclient.packages.list st with
    | (Except.error err, c) =>
      { err := some err, fr := fr, archiveFiles := archiveFiles, client := c,
        calls := [ArchiveCall.packageList], output := [] }
    | (Except.ok pkgs, c) =>
      let availableArchives := indexPackages pkgs []
      -- upload archives that we need to, updating the map
      let s := uploadArchives fclient availableArchives (range.order archiveFiles)
        { client := c, calls := [ArchiveCall.packageList], output := [],
          archiveFiles := archiveFiles }
      -- resolve references to urls in packages to be applied
      { err := resolvePackages s.archiveFiles fr.packages, fr := fr,
        archiveFiles := s.archiveFiles, client := s.client, calls := s.calls,
        output := s.output }

/-! ## The orchestrator -/

/-- The message of `errors.Wrap(err, message)`. -/
def Wrap (err message : String) : String :=
  message ++ ": " ++ err

/-- One client call of `apply`, tagged with the stage that made it. -/
inductive ApiCall (S : Type) where
  | archives : ArchiveCall → ApiCall S
  | environments : Call S → ApiCall S
  | packages : Call (PackageSpec S) → ApiCall S
  | functions : Call S → ApiCall S
  | httpTriggers : Call S → ApiCall S
  | kubernetesWatchTriggers : Call S → ApiCall S
  | timeTriggers : Call S → ApiCall S
  | messageQueueTriggers : Call S → ApiCall S
deriving DecidableEq, Repr

/-- The position of the stage of a call in the order of `apply`. -/
def ApiCall.stage {S : Type} : ApiCall S → Nat
  | ApiCall.archives _ => 0
  | ApiCall.environments _ => 1
  | ApiCall.packages _ => 2
  | ApiCall.functions _ => 3
  | ApiCall.httpTriggers _ => 4
  | ApiCall.kubernetesWatchTriggers _ => 5
  | ApiCall.timeTriggers _ => 6
  | ApiCall.messageQueueTriggers _ => 7

/-- What `apply` returns (`err`, `none` for nil), the server state and the log of the
client calls made. -/
structure ApplyOutcome (σ S : Type) where
  err : Option String
  client : σ
  calls : List (ApiCall S)

/-- The orchestrator `apply`. -/
def apply {σ S : Type} [DecidableEq S] [Inhabited S] (fclient : Client σ S) (fs : LocalFiles)
    (range : MapRange) (specDir : String) (fr : FissionResources S) (delete : Bool) (st : σ) :
    ApplyOutcome σ S :=
  -- upload archives that need to be uploaded
  let ra := applyArchives fclient fs range specDir fr st
  let calls := ra.calls.map ApiCall.archives
  match ra.err with
  | some err => { err := some err, client := ra.client, calls := calls }
  | none =>
    let fr := ra.fr
    let re := applyEnvironments fclient fr delete ra.client
    let calls := calls ++ re.calls.map ApiCall.environments
    match re.err with
    | some err =>
      { err := some (Wrap err "environment apply failed"), client := re.client, calls := calls }
    | none =>
      let rp := applyPackages fclient fr delete re.client
      let calls := calls ++ rp.calls.map ApiCall.packages
      match rp.err with
      | some err =>
        { err := some (Wrap err "package apply failed"), client := rp.client, calls := calls }
      | none =>
        let _pkgMeta := rp.metadataMap
        let rf := applyFunctions fclient fr delete rp.client
        let calls := calls ++ rf.calls.map ApiCall.functions
        match rf.err with
        | some err =>
          { err := some (Wrap err "function apply failed"), client := rf.client, calls := calls }
        | none =>
          let rh := applyHTTPTriggers fclient fr delete rf.client
          let calls := calls ++ rh.calls.map ApiCall.httpTriggers
          match rh.err with
          | some err =>
            { err := some (Wrap err "HTTPTrigger apply failed"), client := rh.client,
              calls := calls }
          | none =>
            let rk := applyKubernetesWatchTriggers fclient fr delete rh.client
            let calls := calls ++ rk.calls.map ApiCall.kubernetesWatchTriggers
            match rk.err with
            | some err =>
              { err := some (Wrap err "KubernetesWatchTrigger apply failed"),
                client := rk.client, calls := calls }
            | none =>
              let rt := applyTimeTriggers fclient fr delete rk.client
              let calls := calls ++ rt.calls.map ApiCall.timeTriggers
              match rt.err with
              | some err =>
                { err := some (Wrap err "TimeTrigger apply failed"), client := rt.client,
                  calls := calls }
              | none =>
                let rm := applyMessageQueueTriggers fclient fr delete rt.client
                let calls := calls ++ rm.calls.map ApiCall.messageQueueTriggers
                match rm.err with
                | some err =>
                  { err := some (Wrap err "MessageQueueTrigger apply failed"),
                    client := rm.client, calls := calls }
                | none => { err := none, client := rm.client, calls := calls }

/-! ## The spec loader -/

/-- Modelled from the spec: the envelope type `Objkind`, declared outside `spec.go`, which
exposes only the `kind` of a document. -/
structure Objkind where
  Kind : String
deriving DecidableEq, Repr

/-- The YAML library as `parseYaml` uses it: `yaml.Unmarshal` of a document into each of
the target types. `objkind` gives the envelope the call leaves behind together with its
error, which `parseYaml` never looks at; the other fields give the parsed value or the
error. -/
structure YamlDecoder (S : Type) where
  objkind : List UInt8 → Objkind × Option String
  package : List UInt8 → Except String (Resource (PackageSpec S))
  function : List UInt8 → Except String (Resource S)
  environment : List UInt8 → Except String (Resource S)
  httpTrigger : List UInt8 → Except String (Resource S)
  kubernetesWatchTrigger : List UInt8 → Except String (Resource S)
  timeTrigger : List UInt8 → Except String (Resource S)
  messageQueueTrigger : List UInt8 → Except String (Resource S)
  deploymentConfig : List UInt8 → Except String DeploymentConfig
  archiveUploadSpec : List UInt8 → Except String ArchiveUploadSpec

/-- What `parseYaml` returns (`err`, `none` for nil), the resource set it leaves behind
and the warnings it prints. -/
structure ParseResult (S : Type) where
  err : Option String
  fr : FissionResources S
  warnings : List String

/-- The loader step `parseYaml`: one YAML document, dispatched on its kind. -/
def parseYaml {S : Type} (y : YamlDecoder S) (path : String) (b : List UInt8)
    (fr : FissionResources S) : ParseResult S :=
  let o := (y.objkind b).1
  if o.Kind = "Package" then
    match y.package b with
    | Except.error err =>
      { err := some err, fr := fr,
        warnings := ["Failed to parse " ++ o.Kind ++ " in " ++ path ++ ": " ++ err] }
    | Except.ok v =>
      { err := none, fr := { fr with packages := fr.packages ++ [v] },
        warnings := [] }
  else if o.Kind = "Function" then
    match y.function b with
    | Except.error err =>
      { err := some err, fr := fr,
        warnings := ["Failed to parse " ++ o.Kind ++ " in " ++ path ++ ": " ++ err] }
    | Except.ok v =>
      { err := none, fr := { fr with functions := fr.functions ++ [v] },
        warnings := [] }
  else if o.Kind = "Environment" then
    match y.environment b with
    | Except.error err =>
      { err := some err, fr := fr,
        warnings := ["Failed to parse " ++ o.Kind ++ " in " ++ path ++ ": " ++ err] }
    | Except.ok v =>
      { err := none, fr := { fr with environments := fr.environments ++ [v] },
        warnings := [] }
  else if o.Kind = "HTTPTrigger" then
    match y.httpTrigger b with
    | Except.error err =>
      { err := some err, fr := fr,
        warnings := ["Failed to parse " ++ o.Kind ++ " in " ++ path ++ ": " ++ err] }
    | Except.ok v =>
      { err := none, fr := { fr with httpTriggers := fr.httpTriggers ++ [v] },
        warnings := [] }
  else if o.Kind = "KubernetesWatchTrigger" then
    match y.kubernetesWatchTrigger b with
    | Except.error err =>
      { err := some err, fr := fr,
        warnings := ["Failed to parse " ++ o.Kind ++ " in " ++ path ++ ": " ++ err] }
    | Except.ok v =>
      { err := none, fr := { fr with kubernetesWatchTriggers := fr.kubernetesWatchTriggers ++ [v] },
        warnings := [] }
  else if o.Kind = "TimeTrigger" then
    match y.timeTrigger b with
    | Except.error err =>
      { err := some err, fr := fr,
        warnings := ["Failed to parse " ++ o.Kind ++ " in " ++ path ++ ": " ++ err] }
    | Except.ok v =>
      { err := none, fr := { fr with timeTriggers := fr.timeTriggers ++ [v] },
        warnings := [] }
  else if o.Kind = "MessageQueueTrigger" then
    match y.messageQueueTrigger b with
    | Except.error err =>
      { err := some err, fr := fr,
        warnings := ["Failed to parse " ++ o.Kind ++ " in " ++ path ++ ": " ++ err] }
    | Except.ok v =>
      { err := none, fr := { fr with messageQueueTriggers := fr.messageQueueTriggers ++ [v] },
        warnings := [] }
  -- the following are not CRDs
  else if o.Kind = "DeploymentConfig" then
    match y.deploymentConfig b with
    | Except.error err =>
      { err := some err, fr := fr,
        warnings := ["Failed to parse " ++ o.Kind ++ " in " ++ path ++ ": " ++ err] }
    | Except.ok v =>
      { err := none, fr := { fr with deploymentConfig := v }, warnings := [] }
  else if o.Kind = "ArchiveUploadSpec" then
    match y.archiveUploadSpec b with
    | Except.error err =>
      { err := some err, fr := fr,
        warnings := ["Failed to parse " ++ o.Kind ++ " in " ++ path ++ ": " ++ err] }
    | Except.ok v =>
      { err := none, fr := { fr with archiveUploadSpecs := fr.archiveUploadSpecs ++ [v] },
        warnings := [] }
  else
    -- no need to error out just because there is some extra files around
    { err := none, fr := fr,
      warnings := ["Ignoring unknown type " ++ o.Kind ++ " in " ++ path] }

/-! ## The calls a reconcile routine is bound to make

These definitions restate the loops of `applyKind` as lists of calls; the theorems
below relate the call log of the routine to them. -/

/-- A declared resource after the stamp at the head of the loop body. -/
def stamped {S T : Type} (fr : FissionResources S) (o : Resource T) : Resource T :=
  { o with Metadata := applyDeploymentConfig o.Metadata fr }

/-- The write the loop body makes for a stamped resource `o`, by the index `existent`. -/
def planFor {T : Type} [DecidableEq T] (existent : GoMap (Resource T)) (o : Resource T) :
    List (Call T) :=
  match mapGet existent (mapKey o.Metadata) with
  | some existingObj => if existingObj.Spec = o.Spec then [] else [Call.update o]
  | none => [Call.create o]

/-- The writes of the first loop when no client call fails. -/
def plannedWrites {S T : Type} [DecidableEq T] (fr : FissionResources S)
    (existent : GoMap (Resource T)) : List (Resource T) → List (Call T)
  | [] => []
  | o :: rest => planFor existent (stamped fr o) ++ plannedWrites fr existent rest

/-- The set `desired` after the first loop. -/
def desiredOf {S T : Type} (fr : FissionResources S) :
    List (Resource T) → GoMap Bool → GoMap Bool
  | [], desired => desired
  | o :: rest, desired =>
    desiredOf fr rest (mapPut desired (mapKey (stamped fr o).Metadata) true)

/-- The deletes of the second loop when no client call fails. -/
def plannedDeletes {T : Type} (desired : GoMap Bool) : List (Resource T) → List (Call T)
  | [] => []
  | o :: rest =>
    match mapGet desired (mapKey o.Metadata) with
    | some _ => plannedDeletes desired rest
    | none => Call.delete o.Metadata :: plannedDeletes desired rest

/-! ## Concrete clients and resource sets

Small closed inputs on which the routines are evaluated. The server state is `Unit`:
these clients answer every call the same way. -/

/-- A client of one kind that lists `listing` and accepts every write and delete. -/
def staticKind {T : Type} (listing : List (Resource T)) : KindClient Unit T :=
  { list := fun st => (Except.ok listing, st),
    create := fun o st => (Except.ok o.Metadata, st),
    update := fun o st => (Except.ok o.Metadata, st),
    delete := fun _ st => (none, st) }

/-- A client of one kind that lists `listing` and whose Create fails. -/
def refusingKind {T : Type} (listing : List (Resource T)) : KindClient Unit T :=
  { list := fun st => (Except.ok listing, st),
    create := fun _ st => (Except.error "create refused", st),
    update := fun o st => (Except.ok o.Metadata, st),
    delete := fun _ st => (none, st) }

/-- A client whose environments are served by `kc`, with no other resource on the
server; an upload returns a URL archive at `http://store/` followed by the path. -/
def envClient (kc : KindClient Unit Nat) : Client Unit Nat :=
  { packages := staticKind [], functions := staticKind [], environments := kc,
    httpTriggers := staticKind [], watches := staticKind [], timeTriggers := staticKind [],
    messageQueueTriggers := staticKind [],
    createArchive := fun path st =>
      ({ Type_ := ArchiveTypeUrl, Literal := none, URL := "http://store/" ++ path,
         Checksum := ⟨"sha256", "00"⟩ }, st) }

/-- The deployment config `demo`. -/
def demoConfig : DeploymentConfig :=
  { Kind := "DeploymentConfig", Name := "demo", UID := "uid-1" }

/-- A resource set of deployment `demo` that declares the environments `envs` only. -/
def envSet (envs : List (Resource Nat)) : FissionResources Nat :=
  { deploymentConfig := demoConfig, packages := [], functions := [], environments := envs,
    httpTriggers := [], kubernetesWatchTriggers := [], timeTriggers := [],
    messageQueueTriggers := [], archiveUploadSpecs := [] }

/-- An environment as a YAML document declares it: no annotations. -/
def declaredEnv (ns name : String) (spec : Nat) : Resource Nat :=
  { Kind := "Environment",
    Metadata := { ObjectMeta.zero with Namespace := ns, Name := name },
    Spec := spec }

/-- An environment as the server lists it after deployment `uid` wrote it. -/
def serverEnv (ns name uid : String) (spec : Nat) : Resource Nat :=
  { Kind := "Environment",
    Metadata := { ObjectMeta.zero with
      Namespace := ns, Name := name, ResourceVersion := "41",
      Annotations := some [(FISSION_DEPLOYMENT_NAME_KEY, "demo"),
        (FISSION_DEPLOYMENT_UID_KEY, uid)] },
    Spec := spec }

/-- A local machine on which every glob matches the one file it names, and every file
has 10 bytes, under a literal limit of 256 KiB. -/
def demoFiles : LocalFiles :=
  { clean := fun path => path,
    glob := fun absGlob => Except.ok [absGlob],
    tempFile := fun name => Except.ok ("/tmp/" ++ name),
    zipMake := fun _ _ => none,
    fileSize := fun _ => 10,
    getContents := fun _ => some [104, 105],
    fileChecksum := fun _ => Except.ok ⟨"sha256", "ab"⟩,
    ArchiveLiteralSizeLimit := 262144 }

/-- A package whose source archive refers to the archive upload spec `src`. -/
def helloPackage : Resource (PackageSpec Nat) :=
  { Kind := "Package",
    Metadata := { ObjectMeta.zero with Namespace := "default", Name := "hello" },
    Spec := { Source := { Archive.zero with Type_ := ArchiveTypeUrl, URL := "archive://src" },
              Deployment := Archive.zero, rest := 0 } }

/-- A resource set of deployment `demo`: the archive upload spec `src` and the package
`helloPackage` that refers to it. -/
def archiveSet : FissionResources Nat :=
  { deploymentConfig := demoConfig, packages := [helloPackage], functions := [],
    environments := [], httpTriggers := [], kubernetesWatchTriggers := [],
    timeTriggers := [], messageQueueTriggers := [],
    archiveUploadSpecs :=
      [{ Name := "src", RootDir := "/repo", IncludeGlobs := ["hello.py"], ExcludeGlobs := [] }] }

/-- The range that visits the entries in the order in which their names were bound. -/
def insertionOrder : MapRange :=
  { order := fun m => m, perm := fun m => List.Perm.refl m }

/-- The range that visits the entries in the opposite order. -/
def reverseOrder : MapRange :=
  { order := fun m => m.reverse, perm := fun m => List.reverse_perm m }

/-- A log of `apply` in which the stages follow the order of `apply` and none comes
after stage `n`. -/
def stagesWithin {S : Type} (n : Nat) (calls : List (ApiCall S)) : Prop :=
  (calls.map ApiCall.stage).Pairwise (fun a b => a ≤ b) ∧ ∀ x ∈ calls, x.stage ≤ n

/-! ## The pieces of `localArchiveFromSpec`

The root directory and the artifact of `localArchiveFromSpec`, restated on their own so
that theorems can name them. -/

/-- The directory `rootDir` in which `localArchiveFromSpec` expands the globs. -/
def rootDirOf (fs : LocalFiles) (specDir : String) (aus : ArchiveUploadSpec) : String :=
  if aus.RootDir.length = 0 then fs.clean (specDir ++ "/..") else aus.RootDir

/-- The artifact `archiveFileName` of `localArchiveFromSpec` for the matched files: the
one file, or the zip of the files in a temporary file. -/
def artifactOf (fs : LocalFiles) (aus : ArchiveUploadSpec) (files : List String) :
    Except String String :=
  match files with
  | [file] => Except.ok file
  | _ =>
    match fs.tempFile ("fission-archive-" ++ aus.Name) with
    | Except.error err => Except.error err
    | Except.ok archiveFileName =>
      match fs.zipMake archiveFileName files with
      | some err => Except.error err
      | none => Except.ok archiveFileName

/-- A local machine like `demoFiles` on which every file has `n` bytes. -/
def filesOfSize (n : Int) : LocalFiles :=
  { demoFiles with fileSize := fun _ => n }

/-- The archive upload spec `src` of `archiveSet`. -/
def srcUpload : ArchiveUploadSpec :=
  { Name := "src", RootDir := "/repo", IncludeGlobs := ["hello.py"], ExcludeGlobs := [] }

/-- The uploads of the loop `uploadArchives` over the entries of the archive map: one
for every entry that is not a literal and whose checksum is not in the content index. -/
def plannedUploads (availableArchives : GoMap String) :
    List (String × Archive) → List ArchiveCall
  | [] => []
  | (_, ar) :: rest =>
    if ar.Type_ = ArchiveTypeLiteral then plannedUploads availableArchives rest
    else
      match mapGet availableArchives ar.Checksum.Sum with
      | some _ => plannedUploads availableArchives rest
      | none => ArchiveCall.createArchive ar.URL :: plannedUploads availableArchives rest

/-- The package `default/hello` with a source archive of type `typ` and URL `url`. -/
def refPackage (typ url : String) : Resource (PackageSpec Nat) :=
  { Kind := "Package",
    Metadata := { ObjectMeta.zero with Namespace := "default", Name := "hello" },
    Spec := { Source := { Archive.zero with Type_ := typ, URL := url },
              Deployment := Archive.zero, rest := 0 } }

/-- A resource set of deployment `demo` with the one package `pkg` and the archive
upload specs `specs`. -/
def refSet (pkg : Resource (PackageSpec Nat)) (specs : List ArchiveUploadSpec) :
    FissionResources Nat :=
  { deploymentConfig := demoConfig, packages := [pkg], functions := [],
    environments := [], httpTriggers := [], kubernetesWatchTriggers := [],
    timeTriggers := [], messageQueueTriggers := [], archiveUploadSpecs := specs }

/-- A package as the server lists it, whose source archive has type `url`, the URL
`url` and the checksum sum `sum`. -/
def storedPackage (url sum : String) : Resource (PackageSpec Nat) :=
  { Kind := "Package",
    Metadata := { ObjectMeta.zero with Namespace := "default", Name := "stored" },
    Spec := { Source := { Type_ := ArchiveTypeUrl, Literal := none, URL := url,
                          Checksum := ⟨"sha256", sum⟩ },
              Deployment := Archive.zero, rest := 0 } }

/-- A client like `envClient (staticKind [])` whose server lists the packages `pkgs`. -/
def packageClient (pkgs : List (Resource (PackageSpec Nat))) : Client Unit Nat :=
  { envClient (staticKind []) with packages := staticKind pkgs }

/-- A YAML decoder that reads the kind `kind` off every document and, for every target
type, parses a default value when `good` is set and fails otherwise. -/
def fixedDecoder (kind : String) (good : Bool) : YamlDecoder Nat :=
  { objkind := fun _ => (⟨kind⟩, none),
    package := fun _ =>
      if good then Except.ok (refPackage "url" "archive://src") else Except.error "yaml: bad",
    function := fun _ =>
      if good then Except.ok (declaredEnv "default" "fn" 1) else Except.error "yaml: bad",
    environment := fun _ =>
      if good then Except.ok (declaredEnv "default" "py" 7) else Except.error "yaml: bad",
    httpTrigger := fun _ =>
      if good then Except.ok (declaredEnv "default" "ht" 2) else Except.error "yaml: bad",
    kubernetesWatchTrigger := fun _ =>
      if good then Except.ok (declaredEnv "default" "kw" 3) else Except.error "yaml: bad",
    timeTrigger := fun _ =>
      if good then Except.ok (declaredEnv "default" "tt" 4) else Except.error "yaml: bad",
    messageQueueTrigger := fun _ =>
      if good then Except.ok (declaredEnv "default" "mq" 5) else Except.error "yaml: bad",
    deploymentConfig := fun _ =>
      if good then Except.ok demoConfig else Except.error "yaml: bad",
    archiveUploadSpec := fun _ =>
      if good then Except.ok srcUpload else Except.error "yaml: bad" }

/-! ## A server that is a map

The server of one resource kind as a map keyed by (Namespace, Name): a list that holds
at most one resource for a key once it has been written to. -/

/-- Whether two metadata values have the same Namespace and the same Name. -/
def sameKey (a b : ObjectMeta) : Bool :=
  decide (a.Namespace = b.Namespace ∧ a.Name = b.Name)

/-- The server after `o` is stored under its key, in place of what was there. -/
def serverPut {T : Type} (o : Resource T) (st : List (Resource T)) : List (Resource T) :=
  st.filter (fun x => !sameKey x.Metadata o.Metadata) ++ [o]

/-- The server after the key of `m` is removed. -/
def serverRemove {T : Type} (m : ObjectMeta) (st : List (Resource T)) : List (Resource T) :=
  st.filter (fun x => !sameKey x.Metadata m)

/-- The client of a map server: List returns the resources, Create inserts, Update
replaces, Delete removes; no call fails. -/
def mapServer {T : Type} : KindClient (List (Resource T)) T :=
  { list := fun st => (Except.ok st, st),
    create := fun o st => (Except.ok o.Metadata, serverPut o st),
    update := fun o st => (Except.ok o.Metadata, serverPut o st),
    delete := fun m st => (none, serverRemove m st) }

/-- An environment as the server lists it after deployment `uid` wrote it under the
deployment name `depName`. -/
def serverEnvNamed (ns name depName uid : String) (spec : Nat) : Resource Nat :=
  { Kind := "Environment",
    Metadata := { ObjectMeta.zero with
      Namespace := ns, Name := name, ResourceVersion := "41",
      Annotations := some [(FISSION_DEPLOYMENT_NAME_KEY, depName),
        (FISSION_DEPLOYMENT_UID_KEY, uid)] },
    Spec := spec }

/-- A local machine like `filesOfSize 300000` on which the checksum sum of
`/repo/big.bin` is `cd` and that of every other file is `ab`. -/
def twoFiles : LocalFiles :=
  { filesOfSize 300000 with
    fileChecksum := fun path =>
      if path = "/repo/big.bin" then Except.ok ⟨"sha256", "cd"⟩
      else Except.ok ⟨"sha256", "ab"⟩ }

/-- A resource set of deployment `demo` with the two archive upload specs `src` and
`big` and no package. -/
def twoArchiveSet : FissionResources Nat :=
  { deploymentConfig := demoConfig, packages := [], functions := [],
    environments := [], httpTriggers := [], kubernetesWatchTriggers := [],
    timeTriggers := [], messageQueueTriggers := [],
    archiveUploadSpecs :=
      [srcUpload,
       { Name := "big", RootDir := "/repo", IncludeGlobs := ["big.bin"], ExcludeGlobs := [] }] }

/-! ## Go maps: lookup after assignment -/

theorem mapGet_mapPut_same {α : Type} (m : GoMap α) (k : String) (v : α) :
    mapGet (mapPut m k v) k = some v := by
  induction m with
  | nil => simp [mapPut, mapGet]
  | cons e rest ih =>
    obtain ⟨k', v'⟩ := e
    by_cases h : k' = k
    · simp [mapPut, mapGet, h]
    · simp [mapPut, mapGet, h, ih]

theorem mapGet_mapPut_other {α : Type} (m : GoMap α) (k j : String) (v : α) (h : k ≠ j) :
    mapGet (mapPut m k v) j = mapGet m j := by
  induction m with
  | nil => simp [mapPut, mapGet, h]
  | cons e rest ih =>
    obtain ⟨k', v'⟩ := e
    by_cases h1 : k' = k
    · subst h1
      simp [mapPut, mapGet, h]
    · by_cases h2 : k' = j
      · subst h2
        simp [mapPut, mapGet, h1]
      · simp [mapPut, mapGet, h1, h2, ih]

theorem mapPut_of_mapGet {α : Type} (m : GoMap α) (k : String) (v : α)
    (h : mapGet m k = some v) : mapPut m k v = m := by
  induction m with
  | nil => simp [mapGet] at h
  | cons e rest ih =>
    obtain ⟨k', v'⟩ := e
    by_cases h1 : k' = k
    · subst h1
      simp [mapGet] at h
      simp [mapPut, h]
    · simp [mapGet, h1] at h
      simp [mapPut, h1, ih h]

theorem deployment_keys_ne : FISSION_DEPLOYMENT_NAME_KEY ≠ FISSION_DEPLOYMENT_UID_KEY := by
  decide

/-! ## The ownership helpers -/

theorem applyDeploymentConfig_eq {S : Type} (m : ObjectMeta) (fr : FissionResources S) :
    applyDeploymentConfig m fr =
      { m with Annotations := some (mapPut (mapPut (m.Annotations.getD [])
          FISSION_DEPLOYMENT_NAME_KEY fr.deploymentConfig.Name)
          FISSION_DEPLOYMENT_UID_KEY fr.deploymentConfig.UID) } := by
  cases h : m.Annotations <;> simp [applyDeploymentConfig, h]

/-- C7. `hasDeploymentConfig m fr` is false when `m` has no annotations map; with a map it
is true exactly when the map binds `fission-deployment-uid` to `fr.deploymentConfig.UID`;
and two calls agree as soon as they agree on the presence of the map, on its binding of
that one key and on the UID of the deployment config, whatever else differs. -/
theorem hasDeploymentConfig_uid_only {S : Type} (m : ObjectMeta) (fr : FissionResources S) :
    (m.Annotations = none → hasDeploymentConfig m fr = false) ∧
    (∀ a, m.Annotations = some a →
      (hasDeploymentConfig m fr = true ↔
        mapGet a FISSION_DEPLOYMENT_UID_KEY = some fr.deploymentConfig.UID)) ∧
    (∀ (S2 : Type) (m2 : ObjectMeta) (fr2 : FissionResources S2),
      m2.Annotations.map (fun a => mapGet a FISSION_DEPLOYMENT_UID_KEY) =
        m.Annotations.map (fun a => mapGet a FISSION_DEPLOYMENT_UID_KEY) →
      fr2.deploymentConfig.UID = fr.deploymentConfig.UID →
      hasDeploymentConfig m2 fr2 = hasDeploymentConfig m fr) := by
  refine ⟨?_, ?_, ?_⟩
  · intro h
    simp [hasDeploymentConfig, h]
  · intro a h
    simp only [hasDeploymentConfig, h]
    cases hg : mapGet a FISSION_DEPLOYMENT_UID_KEY with
    | none => simp
    | some uid => simp
  · intro S2 m2 fr2 hann huid
    simp only [hasDeploymentConfig, huid]
    cases h1 : m.Annotations with
    | none =>
      cases h2 : m2.Annotations with
      | none => rfl
      | some a2 => simp [h1, h2] at hann
    | some a =>
      cases h2 : m2.Annotations with
      | none => simp [h1, h2] at hann
      | some a2 =>
        simp only [h1, h2, Option.map_some', Option.some.injEq] at hann
        simp only [hann]

/-- C8. `applyDeploymentConfig m fr` leaves the previous annotations (none counting as
empty) with `fission-deployment-name` bound to the config's Name and
`fission-deployment-uid` bound to its UID; every other key is looked up as before, a key
bound before is still bound, the other metadata fields are unchanged,
`hasDeploymentConfig` holds afterwards and a second application changes nothing. -/
theorem applyDeploymentConfig_frame {S : Type} (m : ObjectMeta) (fr : FissionResources S) :
    (applyDeploymentConfig m fr).Annotations =
      some (mapPut (mapPut (m.Annotations.getD []) FISSION_DEPLOYMENT_NAME_KEY
        fr.deploymentConfig.Name) FISSION_DEPLOYMENT_UID_KEY fr.deploymentConfig.UID) ∧
    (∃ a, (applyDeploymentConfig m fr).Annotations = some a ∧
      mapGet a FISSION_DEPLOYMENT_NAME_KEY = some fr.deploymentConfig.Name ∧
      mapGet a FISSION_DEPLOYMENT_UID_KEY = some fr.deploymentConfig.UID ∧
      (∀ k, k ≠ FISSION_DEPLOYMENT_NAME_KEY → k ≠ FISSION_DEPLOYMENT_UID_KEY →
        mapGet a k = mapGet (m.Annotations.getD []) k) ∧
      (∀ k v, mapGet (m.Annotations.getD []) k = some v → (mapGet a k).isSome = true)) ∧
    (applyDeploymentConfig m fr).Name = m.Name ∧
    (applyDeploymentConfig m fr).Namespace = m.Namespace ∧
    (applyDeploymentConfig m fr).UID = m.UID ∧
    (applyDeploymentConfig m fr).ResourceVersion = m.ResourceVersion ∧
    (applyDeploymentConfig m fr).Labels = m.Labels ∧
    hasDeploymentConfig (applyDeploymentConfig m fr) fr = true ∧
    applyDeploymentConfig (applyDeploymentConfig m fr) fr = applyDeploymentConfig m fr := by
  have hne := deployment_keys_ne
  have hann : (applyDeploymentConfig m fr).Annotations =
      some (mapPut (mapPut (m.Annotations.getD []) FISSION_DEPLOYMENT_NAME_KEY
        fr.deploymentConfig.Name) FISSION_DEPLOYMENT_UID_KEY fr.deploymentConfig.UID) := by
    cases h : m.Annotations <;> simp [applyDeploymentConfig, h]
  have hname : mapGet (mapPut (mapPut (m.Annotations.getD []) FISSION_DEPLOYMENT_NAME_KEY
        fr.deploymentConfig.Name) FISSION_DEPLOYMENT_UID_KEY fr.deploymentConfig.UID)
        FISSION_DEPLOYMENT_NAME_KEY = some fr.deploymentConfig.Name := by
    rw [mapGet_mapPut_other _ _ _ _ (Ne.symm hne), mapGet_mapPut_same]
  have huid := mapGet_mapPut_same (mapPut (m.Annotations.getD []) FISSION_DEPLOYMENT_NAME_KEY
        fr.deploymentConfig.Name) FISSION_DEPLOYMENT_UID_KEY fr.deploymentConfig.UID
  have hother : ∀ k, k ≠ FISSION_DEPLOYMENT_NAME_KEY → k ≠ FISSION_DEPLOYMENT_UID_KEY →
      mapGet (mapPut (mapPut (m.Annotations.getD []) FISSION_DEPLOYMENT_NAME_KEY
        fr.deploymentConfig.Name) FISSION_DEPLOYMENT_UID_KEY fr.deploymentConfig.UID) k =
      mapGet (m.Annotations.getD []) k := by
    intro k h1 h2
    rw [mapGet_mapPut_other _ _ _ _ (Ne.symm h2), mapGet_mapPut_other _ _ _ _ (Ne.symm h1)]
  refine ⟨hann, ⟨_, hann, hname, huid, hother, ?_⟩, ?_, ?_, ?_, ?_, ?_, ?_, ?_⟩
  · intro k v hk
    by_cases h1 : k = FISSION_DEPLOYMENT_NAME_KEY
    · subst h1
      rw [hname]; rfl
    · by_cases h2 : k = FISSION_DEPLOYMENT_UID_KEY
      · subst h2
        rw [huid]; rfl
      · rw [hother k h1 h2, hk]; rfl
  · cases h : m.Annotations <;> simp [applyDeploymentConfig, h]
  · cases h : m.Annotations <;> simp [applyDeploymentConfig, h]
  · cases h : m.Annotations <;> simp [applyDeploymentConfig, h]
  · cases h : m.Annotations <;> simp [applyDeploymentConfig, h]
  · cases h : m.Annotations <;> simp [applyDeploymentConfig, h]
  · simp only [hasDeploymentConfig, hann, huid]
    simp
  · rw [applyDeploymentConfig_eq (applyDeploymentConfig m fr) fr, hann]
    simp only [Option.getD_some]
    rw [mapPut_of_mapGet _ _ _ hname, mapPut_of_mapGet _ _ _ huid, ← hann]

/-! ## The call log of a reconcile routine -/

theorem applyDesired_calls {σ S T : Type} [DecidableEq T] (kc : KindClient σ T)
    (fr : FissionResources S) (existent : GoMap (Resource T)) (declared : List (Resource T))
    (s : ApplyState σ T) :
    ∃ t, (applyDesired kc fr existent declared s).2.calls = s.calls ++ t ∧
      t <+: plannedWrites fr existent declared ∧
      ((applyDesired kc fr existent declared s).1 = none →
        t = plannedWrites fr existent declared ∧
        (applyDesired kc fr existent declared s).2.desired = desiredOf fr declared s.desired ∧
        (applyDesired kc fr existent declared s).2.output = s.output) := by
  induction declared generalizing s with
  | nil => exact ⟨[], by simp [applyDesired, plannedWrites, desiredOf]⟩
  | cons o rest ih =>
    simp only [applyDesired, plannedWrites, desiredOf, planFor, stamped]
    split
    · rename_i existingObj hget
      split
      · obtain ⟨t, h1, h2, h3⟩ := ih { s with
          desired := mapPut s.desired (mapKey (applyDeploymentConfig o.Metadata fr)) true,
          metadataMap := mapPut s.metadataMap (mapKey (applyDeploymentConfig o.Metadata fr))
            existingObj.Metadata }
        exact ⟨t, by simpa using h1, by simpa using h2, by simpa using h3⟩
      · split
        · exact ⟨[Call.update ⟨o.Kind, applyDeploymentConfig o.Metadata fr, o.Spec⟩],
            by simp, by simp [List.prefix_append], by simp⟩
        · rename_i newmeta c hupd
          obtain ⟨t, h1, h2, h3⟩ := ih { s with
            desired := mapPut s.desired (mapKey (applyDeploymentConfig o.Metadata fr)) true,
            client := c,
            calls := s.calls ++ [Call.update ⟨o.Kind, applyDeploymentConfig o.Metadata fr, o.Spec⟩],
            numUpdated := s.numUpdated + 1,
            metadataMap := mapPut s.metadataMap (mapKey (applyDeploymentConfig o.Metadata fr))
              newmeta }
          refine ⟨Call.update ⟨o.Kind, applyDeploymentConfig o.Metadata fr, o.Spec⟩ :: t,
            by simpa using h1, ?_, ?_⟩
          · simpa [List.cons_prefix_cons] using h2
          · intro hnone
            simpa using h3 hnone
    · split
      · exact ⟨[Call.create ⟨o.Kind, applyDeploymentConfig o.Metadata fr, o.Spec⟩],
          by simp, by simp [List.prefix_append], by simp⟩
      · rename_i newmeta c hcre
        obtain ⟨t, h1, h2, h3⟩ := ih { s with
          desired := mapPut s.desired (mapKey (applyDeploymentConfig o.Metadata fr)) true,
          client := c,
          calls := s.calls ++ [Call.create ⟨o.Kind, applyDeploymentConfig o.Metadata fr, o.Spec⟩],
          numCreated := s.numCreated + 1,
          metadataMap := mapPut s.metadataMap (mapKey (applyDeploymentConfig o.Metadata fr))
            newmeta }
        refine ⟨Call.create ⟨o.Kind, applyDeploymentConfig o.Metadata fr, o.Spec⟩ :: t,
          by simpa using h1, ?_, ?_⟩
        · simpa [List.cons_prefix_cons] using h2
        · intro hnone
          simpa using h3 hnone

theorem applyDeletes_calls {σ T : Type} (kc : KindClient σ T) (objs : List (Resource T))
    (s : ApplyState σ T) :
    ∃ t, (applyDeletes kc objs s).2.calls = s.calls ++ t ∧
      t <+: plannedDeletes s.desired objs ∧
      ((applyDeletes kc objs s).1 = none → t = plannedDeletes s.desired objs) := by
  induction objs generalizing s with
  | nil => exact ⟨[], by simp [applyDeletes, plannedDeletes]⟩
  | cons o rest ih =>
    simp only [applyDeletes, plannedDeletes]
    split
    · exact ih s
    · split
      · exact ⟨[Call.delete o.Metadata], by simp, by simp [List.prefix_iff_eq_append], by simp⟩
      · rename_i c hdel
        obtain ⟨t, h1, h2, h3⟩ := ih { s with
          client := c, calls := s.calls ++ [Call.delete o.Metadata],
          numDeleted := s.numDeleted + 1,
          output := s.output ++ ["Deleted " ++ o.Kind ++ " " ++ o.Metadata.Namespace ++ "/" ++
            o.Metadata.Name ++ "\n"] }
        refine ⟨Call.delete o.Metadata :: t, by simpa using h1, ?_, ?_⟩
        · simpa [List.cons_prefix_cons] using h2
        · intro hnone
          simpa using h3 hnone

/-- The calls of a whole reconcile routine when nothing fails, for a server listing. -/
theorem applyKind_calls {σ S T : Type} [DecidableEq T] [Inhabited T] (kc : KindClient σ T)
    (label : String) (declared : List (Resource T)) (fr : FissionResources S) (delete : Bool)
    (st c : σ) (allObjs : List (Resource T)) (hlist : kc.list st = (Except.ok allObjs, c)) :
    ∃ t, (applyKind kc label declared fr delete st).calls = Call.list :: t ∧
      t <+: plannedWrites fr (indexObjs (ownedObjs fr allObjs)) declared ++
        (if delete then plannedDeletes (desiredOf fr declared []) (ownedObjs fr allObjs)
         else []) ∧
      ((applyKind kc label declared fr delete st).err = none →
        t = plannedWrites fr (indexObjs (ownedObjs fr allObjs)) declared ++
          (if delete then plannedDeletes (desiredOf fr declared []) (ownedObjs fr allObjs)
           else [])) := by
  obtain ⟨t, h1, h2, h3⟩ := applyDesired_calls kc fr (indexObjs (ownedObjs fr allObjs)) declared
    { client := c, calls := [Call.list], output := [], metadataMap := [], desired := [],
      numCreated := 0, numUpdated := 0, numDeleted := 0 }
  simp only [applyKind, hlist]
  cases hd : applyDesired kc fr (indexObjs (ownedObjs fr allObjs)) declared
    { client := c, calls := [Call.list], output := [], metadataMap := [], desired := [],
      numCreated := 0, numUpdated := 0, numDeleted := 0 } with
  | mk e s1 =>
    rw [hd] at h1 h3
    cases e with
    | some err =>
      refine ⟨t, by simpa using h1, ?_, by simp⟩
      exact h2.trans (List.prefix_append _ _)
    | none =>
      obtain ⟨ht, hdes, _⟩ := h3 rfl
      simp only at ht hdes h1
      cases delete with
      | false =>
        refine ⟨t, by simpa using h1, by simp [ht], ?_⟩
        intro _
        simp [ht]
      | true =>
        obtain ⟨t2, g1, g2, g3⟩ := applyDeletes_calls kc (ownedObjs fr allObjs) s1
        simp only [if_true]
        cases hx : applyDeletes kc (ownedObjs fr allObjs) s1 with
        | mk e2 s2 =>
          rw [hx] at g1 g3
          rw [hdes] at g2 g3
          simp only at g1 g3
          cases e2 with
          | some err =>
            refine ⟨t ++ t2, by simp [g1, h1], ?_, by simp⟩
            rw [ht]
            exact (List.prefix_append_right_inj _).mpr g2
          | none =>
            have := g3 rfl
            refine ⟨t ++ t2, by simp [g1, h1], ?_, ?_⟩
            · rw [ht, this]
            · intro _
              rw [ht, this]

theorem mem_planFor {T : Type} [DecidableEq T] (existent : GoMap (Resource T))
    (o : Resource T) (c : Call T) (h : c ∈ planFor existent o) :
    c = Call.create o ∨ c = Call.update o := by
  unfold planFor at h
  split at h
  · split at h
    · simp at h
    · simp at h
      exact Or.inr h
  · simp at h
    exact Or.inl h

theorem mem_plannedWrites {S T : Type} [DecidableEq T] (fr : FissionResources S)
    (existent : GoMap (Resource T)) (declared : List (Resource T)) (c : Call T) :
    c ∈ plannedWrites fr existent declared ↔
      ∃ o ∈ declared, c ∈ planFor existent (stamped fr o) := by
  induction declared with
  | nil => simp [plannedWrites]
  | cons o rest ih => simp [plannedWrites, ih]

theorem mem_plannedDeletes {T : Type} (desired : GoMap Bool) (objs : List (Resource T))
    (c : Call T) :
    c ∈ plannedDeletes desired objs ↔
      ∃ o ∈ objs, mapGet desired (mapKey o.Metadata) = none ∧ c = Call.delete o.Metadata := by
  induction objs with
  | nil => simp [plannedDeletes]
  | cons o rest ih =>
    simp only [plannedDeletes]
    split
    · rename_i b hb
      simp [ih, hb]
    · rename_i hb
      simp [ih, hb]

/-- Every logged call is the listing or one of the planned writes and deletes. -/
theorem applyKind_calls_mem {σ S T : Type} [DecidableEq T] [Inhabited T]
    (kc : KindClient σ T) (label : String) (declared : List (Resource T))
    (fr : FissionResources S) (delete : Bool) (st : σ) (c : Call T)
    (hc : c ∈ (applyKind kc label declared fr delete st).calls) :
    c = Call.list ∨ (∃ o ∈ declared, c = Call.create (stamped fr o) ∨
      c = Call.update (stamped fr o)) ∨ (delete = true ∧ ∃ m, c = Call.delete m) := by
  cases hl : kc.list st with
  | mk res c1 =>
    cases res with
    | error err =>
      simp [applyKind, hl] at hc
      exact Or.inl hc
    | ok allObjs =>
      obtain ⟨t, h1, h2, _⟩ := applyKind_calls kc label declared fr delete st c1 allObjs hl
      rw [h1] at hc
      rcases List.mem_cons.mp hc with h | h
      · exact Or.inl h
      · have h3 := h2.subset h
        rcases List.mem_append.mp h3 with h4 | h4
        · obtain ⟨o, ho, hp⟩ := (mem_plannedWrites fr _ declared c).mp h4
          exact Or.inr (Or.inl ⟨o, ho, mem_planFor _ _ _ hp⟩)
        · cases delete with
          | false => simp at h4
          | true =>
            simp only [if_true] at h4
            obtain ⟨o, _, _, ho⟩ := (mem_plannedDeletes _ _ c).mp h4
            exact Or.inr (Or.inr ⟨rfl, o.Metadata, ho⟩)

/-! ## The index `existent` -/

theorem mapGet_foldl_mapPut {T : Type} (objs : List (Resource T)) (m : GoMap (Resource T))
    (k : String) :
    mapGet (objs.foldl (fun existent obj => mapPut existent (mapKey obj.Metadata) obj) m) k =
      objs.foldl (fun found obj => if mapKey obj.Metadata = k then some obj else found)
        (mapGet m k) := by
  induction objs generalizing m with
  | nil => rfl
  | cons o rest ih =>
    simp only [List.foldl_cons]
    rw [ih]
    by_cases h : mapKey o.Metadata = k
    · subst h
      simp [mapGet_mapPut_same]
    · simp [h, mapGet_mapPut_other _ _ _ _ h]

theorem foldl_found_absent {T : Type} (objs : List (Resource T)) (k : String)
    (found : Option (Resource T)) (h : ∀ o ∈ objs, mapKey o.Metadata ≠ k) :
    objs.foldl (fun found obj => if mapKey obj.Metadata = k then some obj else found) found =
      found := by
  induction objs generalizing found with
  | nil => rfl
  | cons o rest ih =>
    simp only [List.foldl_cons]
    rw [if_neg (h o (List.mem_cons_self _ _))]
    exact ih found (fun x hx => h x (List.mem_cons_of_mem _ hx))

theorem foldl_found_unique {T : Type} (objs : List (Resource T)) (k : String)
    (found : Option (Resource T)) (e : Resource T) (he : e ∈ objs)
    (hk : mapKey e.Metadata = k) (hnd : (objs.map (fun x => mapKey x.Metadata)).Nodup) :
    objs.foldl (fun found obj => if mapKey obj.Metadata = k then some obj else found) found =
      some e := by
  induction objs generalizing found with
  | nil => cases he
  | cons o rest ih =>
    simp only [List.map_cons, List.nodup_cons, List.mem_map, not_exists, not_and] at hnd
    simp only [List.foldl_cons]
    rcases List.mem_cons.mp he with h | h
    · subst h
      rw [if_pos hk]
      apply foldl_found_absent
      intro x hx hxk
      exact hnd.1 x hx (hxk.trans hk.symm)
    · exact ih _ h hnd.2

theorem foldl_found_isSome {T : Type} (objs : List (Resource T)) (k : String)
    (found : Option (Resource T))
    (h : found.isSome = true ∨ ∃ e ∈ objs, mapKey e.Metadata = k) :
    (objs.foldl (fun found obj => if mapKey obj.Metadata = k then some obj else found)
      found).isSome = true := by
  induction objs generalizing found with
  | nil =>
    rcases h with h | ⟨e, he, _⟩
    · exact h
    · cases he
  | cons o rest ih =>
    simp only [List.foldl_cons]
    apply ih
    by_cases hk : mapKey o.Metadata = k
    · left
      simp [hk]
    · rcases h with h | ⟨e, he, hek⟩
      · left
        simpa [hk] using h
      · rcases List.mem_cons.mp he with h1 | h1
        · subst h1
          exact absurd hek hk
        · exact Or.inr ⟨e, h1, hek⟩

theorem mapKey_zero : mapKey ObjectMeta.zero = ":" := by decide

theorem mapKey_stamped {S T : Type} (fr : FissionResources S) (o : Resource T) :
    mapKey (stamped fr o).Metadata = mapKey o.Metadata := by
  simp [stamped, applyDeploymentConfig_eq, mapKey]

theorem spec_stamped {S T : Type} (fr : FissionResources S) (o : Resource T) :
    (stamped fr o).Spec = o.Spec := rfl

/-- The index finds the one owned server resource that has the key. -/
theorem existent_owned {S T : Type} [Inhabited T] (fr : FissionResources S)
    (allObjs : List (Resource T)) (e : Resource T) (he : e ∈ allObjs)
    (hown : hasDeploymentConfig e.Metadata fr = true)
    (hnd : ((allObjs.filter (fun x => hasDeploymentConfig x.Metadata fr)).map
      (fun x => mapKey x.Metadata)).Nodup) :
    mapGet (indexObjs (ownedObjs fr allObjs)) (mapKey e.Metadata) = some e := by
  unfold indexObjs ownedObjs
  rw [mapGet_foldl_mapPut]
  simp only [List.singleton_append, List.foldl_cons]
  exact foldl_found_unique _ _ _ e (List.mem_filter.mpr ⟨he, by simpa using hown⟩) rfl hnd

/-- The index binds a key other than that of the zero-valued head exactly when an
owned server resource has it. -/
theorem existent_isSome_iff {S T : Type} [Inhabited T] (fr : FissionResources S)
    (allObjs : List (Resource T)) (k : String) (hk : k ≠ ":") :
    (mapGet (indexObjs (ownedObjs fr allObjs)) k).isSome = true ↔
      ∃ e ∈ allObjs, hasDeploymentConfig e.Metadata fr = true ∧ mapKey e.Metadata = k := by
  unfold indexObjs ownedObjs
  rw [mapGet_foldl_mapPut]
  simp only [List.singleton_append, List.foldl_cons]
  have hz : mapKey (Resource.zero : Resource T).Metadata ≠ k := by
    intro h
    apply hk
    rw [← h]
    exact mapKey_zero
  rw [if_neg hz]
  constructor
  · intro h
    by_contra hne
    rw [foldl_found_absent] at h
    · simp [mapGet] at h
    · intro o ho hok
      exact hne ⟨o, (List.mem_filter.mp ho).1, by simpa using (List.mem_filter.mp ho).2, hok⟩
  · rintro ⟨e, he, hown, hek⟩
    exact foldl_found_isSome _ _ _
      (Or.inr ⟨e, List.mem_filter.mpr ⟨he, by simpa using hown⟩, hek⟩)

/-! ## Counting the writes -/

theorem count_planFor_other {T : Type} [DecidableEq T] (existent : GoMap (Resource T))
    (d w : Resource T) (hne : d ≠ w) (c : Call T)
    (hc : c = Call.create w ∨ c = Call.update w) :
    (planFor existent d).count c = 0 := by
  apply List.count_eq_zero_of_not_mem
  intro hmem
  rcases mem_planFor existent d c hmem with h | h <;> rcases hc with h2 | h2 <;>
    rw [h] at h2 <;> first | (injection h2 with h3; exact hne h3) | cases h2

theorem count_plannedWrites {S T : Type} [DecidableEq T] (fr : FissionResources S)
    (existent : GoMap (Resource T)) (declared : List (Resource T)) (w : Resource T)
    (c : Call T) (hc : c = Call.create w ∨ c = Call.update w) :
    (plannedWrites fr existent declared).count c =
      (declared.map (stamped fr)).count w * (planFor existent w).count c := by
  induction declared with
  | nil => simp [plannedWrites]
  | cons d rest ih =>
    simp only [plannedWrites, List.count_append, List.map_cons, ih]
    by_cases h : stamped fr d = w
    · rw [h, List.count_cons_self]
      ring
    · rw [count_planFor_other existent _ w h c hc, List.count_cons_of_ne (Ne.symm h)]
      ring

theorem count_plannedDeletes {T : Type} [DecidableEq T] (desired : GoMap Bool)
    (objs : List (Resource T)) (w : Resource T) (c : Call T)
    (hc : c = Call.create w ∨ c = Call.update w) :
    (plannedDeletes desired objs).count c = 0 := by
  apply List.count_eq_zero_of_not_mem
  intro hmem
  obtain ⟨o, _, _, h⟩ := (mem_plannedDeletes desired objs c).mp hmem
  rcases hc with h2 | h2 <;> rw [h] at h2 <;> cases h2

/-- In a run without error, a write is logged as often as the plan of its resource
holds it, once for every declared resource that is stamped to it. -/
theorem count_applyKind_write {σ S T : Type} [DecidableEq T] [Inhabited T]
    (kc : KindClient σ T) (label : String) (declared : List (Resource T))
    (fr : FissionResources S) (delete : Bool) (st c : σ) (allObjs : List (Resource T))
    (hlist : kc.list st = (Except.ok allObjs, c))
    (hok : (applyKind kc label declared fr delete st).err = none)
    (w : Resource T) (x : Call T) (hx : x = Call.create w ∨ x = Call.update w) :
    (applyKind kc label declared fr delete st).calls.count x =
      (declared.map (stamped fr)).count w *
        (planFor (indexObjs (ownedObjs fr allObjs)) w).count x := by
  obtain ⟨t, h1, _, h3⟩ := applyKind_calls kc label declared fr delete st c allObjs hlist
  rw [h1, h3 hok]
  have hl : x ≠ Call.list := by
    rcases hx with h | h <;> rw [h] <;> intro h2 <;> cases h2
  rw [List.count_cons_of_ne hl, List.count_append,
    count_plannedWrites fr _ declared w x hx]
  cases delete with
  | false => simp
  | true => simp [count_plannedDeletes _ _ w x hx]

theorem count_stamped_of_nodup {S T : Type} [DecidableEq T] (fr : FissionResources S)
    (declared : List (Resource T)) (o : Resource T) (ho : o ∈ declared)
    (hnd : (declared.map (fun d => mapKey d.Metadata)).Nodup) :
    (declared.map (stamped fr)).count (stamped fr o) = 1 := by
  apply List.count_eq_one_of_mem
  · have hm : declared.map (fun d => mapKey d.Metadata) =
        (declared.map (stamped fr)).map (fun d => mapKey d.Metadata) := by
      rw [List.map_map]
      apply List.map_congr_left
      intro d _
      exact (mapKey_stamped fr d).symm
    rw [hm] at hnd
    exact List.Nodup.of_map _ hnd
  · exact List.mem_map_of_mem _ ho

/-- In every run, a write is logged at most as often as it is planned. -/
theorem count_applyKind_write_le {σ S T : Type} [DecidableEq T] [Inhabited T]
    (kc : KindClient σ T) (label : String) (declared : List (Resource T))
    (fr : FissionResources S) (delete : Bool) (st c : σ) (allObjs : List (Resource T))
    (hlist : kc.list st = (Except.ok allObjs, c))
    (w : Resource T) (x : Call T) (hx : x = Call.create w ∨ x = Call.update w) :
    (applyKind kc label declared fr delete st).calls.count x ≤
      (declared.map (stamped fr)).count w *
        (planFor (indexObjs (ownedObjs fr allObjs)) w).count x := by
  obtain ⟨t, h1, h2, _⟩ := applyKind_calls kc label declared fr delete st c allObjs hlist
  rw [h1]
  have hl : x ≠ Call.list := by
    rcases hx with h | h <;> rw [h] <;> intro h2 <;> cases h2
  rw [List.count_cons_of_ne hl]
  refine le_trans (h2.sublist.count_le x) ?_
  rw [List.count_append, count_plannedWrites fr _ declared w x hx]
  cases delete with
  | false => simp
  | true => simp [count_plannedDeletes _ _ w x hx]

/-- In every run, a logged write of a resource is the write planned for it. -/
theorem mem_planFor_of_mem_calls {σ S T : Type} [DecidableEq T] [Inhabited T]
    (kc : KindClient σ T) (label : String) (declared : List (Resource T))
    (fr : FissionResources S) (delete : Bool) (st c : σ) (allObjs : List (Resource T))
    (hlist : kc.list st = (Except.ok allObjs, c))
    (w : Resource T) (x : Call T) (hx : x = Call.create w ∨ x = Call.update w)
    (hmem : x ∈ (applyKind kc label declared fr delete st).calls) :
    x ∈ planFor (indexObjs (ownedObjs fr allObjs)) w := by
  have h1 := count_applyKind_write_le kc label declared fr delete st c allObjs hlist w x hx
  have h2 : 0 < (applyKind kc label declared fr delete st).calls.count x :=
    List.count_pos_iff.mpr hmem
  apply List.count_pos_iff.mp
  by_contra h3
  have h4 : (planFor (indexObjs (ownedObjs fr allObjs)) w).count x = 0 := by omega
  rw [h4, Nat.mul_zero] at h1
  omega

/-- The index binds the key of every owned server resource. -/
theorem existent_isSome_of_owned {S T : Type} [Inhabited T] (fr : FissionResources S)
    (allObjs : List (Resource T)) (k : String)
    (h : ∃ e ∈ allObjs, hasDeploymentConfig e.Metadata fr = true ∧ mapKey e.Metadata = k) :
    (mapGet (indexObjs (ownedObjs fr allObjs)) k).isSome = true := by
  obtain ⟨e, he, hown, hek⟩ := h
  unfold indexObjs ownedObjs
  rw [mapGet_foldl_mapPut]
  simp only [List.singleton_append, List.foldl_cons]
  exact foldl_found_isSome _ _ _
    (Or.inr ⟨e, List.mem_filter.mpr ⟨he, by simpa using hown⟩, hek⟩)

theorem count_stamped_le_one {S T : Type} [DecidableEq T] (fr : FissionResources S)
    (declared : List (Resource T)) (w : Resource T)
    (hnd : (declared.map (fun d => mapKey d.Metadata)).Nodup) :
    (declared.map (stamped fr)).count w ≤ 1 := by
  have hm : declared.map (fun d => mapKey d.Metadata) =
      (declared.map (stamped fr)).map (fun d => mapKey d.Metadata) := by
    rw [List.map_map]
    apply List.map_congr_left
    intro d _
    exact (mapKey_stamped fr d).symm
  rw [hm] at hnd
  exact List.nodup_iff_count_le_one.mp (List.Nodup.of_map _ hnd) w

/-! ## Reaching a declared resource -/

/-- The first loop over `pre ++ post`, when the loop over `pre` meets no error, goes on
over `post` from where the loop over `pre` ends. -/
theorem applyDesired_append {σ S T : Type} [DecidableEq T] (kc : KindClient σ T)
    (fr : FissionResources S) (existent : GoMap (Resource T)) (pre post : List (Resource T))
    (s : ApplyState σ T)
    (hpre : (applyDesired kc fr existent pre s).1 = none) :
    applyDesired kc fr existent (pre ++ post) s =
      applyDesired kc fr existent post (applyDesired kc fr existent pre s).2 := by
  induction pre generalizing s with
  | nil => rfl
  | cons o rest ih =>
    cases hg : mapGet existent (mapKey (applyDeploymentConfig o.Metadata fr)) with
    | none =>
      cases hc : kc.create ⟨o.Kind, applyDeploymentConfig o.Metadata fr, o.Spec⟩ s.client with
      | mk res c =>
        cases res with
        | error e => simp [applyDesired, hg, hc] at hpre
        | ok m =>
          simp only [List.cons_append, applyDesired, hg, hc] at hpre ⊢
          exact ih _ hpre
    | some ex =>
      by_cases heq : ex.Spec = o.Spec
      · simp only [List.cons_append, applyDesired, hg, heq, if_true] at hpre ⊢
        exact ih _ hpre
      · cases hc : kc.update ⟨o.Kind, applyDeploymentConfig o.Metadata fr, o.Spec⟩ s.client with
        | mk res c =>
          cases res with
          | error e => simp [applyDesired, hg, heq, hc] at hpre
          | ok m =>
            simp only [List.cons_append, applyDesired, hg, heq, if_false, hc] at hpre ⊢
            exact ih _ hpre

/-- The step of the first loop for a resource logs the write planned for it, whether
the client accepts the write or not. -/
theorem applyDesired_head_calls {σ S T : Type} [DecidableEq T] (kc : KindClient σ T)
    (fr : FissionResources S) (existent : GoMap (Resource T)) (o : Resource T)
    (post : List (Resource T)) (s : ApplyState σ T) (x : Call T)
    (hx : x ∈ planFor existent (stamped fr o)) :
    x ∈ (applyDesired kc fr existent (o :: post) s).2.calls := by
  cases hg : mapGet existent (mapKey (applyDeploymentConfig o.Metadata fr)) with
  | none =>
    have hxe : x = Call.create ⟨o.Kind, applyDeploymentConfig o.Metadata fr, o.Spec⟩ := by
      simpa [planFor, stamped, hg] using hx
    subst hxe
    cases hc : kc.create ⟨o.Kind, applyDeploymentConfig o.Metadata fr, o.Spec⟩ s.client with
    | mk res c =>
      cases res with
      | error e => simp [applyDesired, hg, hc]
      | ok m =>
        simp only [applyDesired, hg, hc]
        obtain ⟨t, h1, _⟩ := applyDesired_calls kc fr existent post { s with
          desired := mapPut s.desired (mapKey (applyDeploymentConfig o.Metadata fr)) true,
          client := c,
          calls := s.calls ++ [Call.create ⟨o.Kind, applyDeploymentConfig o.Metadata fr, o.Spec⟩],
          numCreated := s.numCreated + 1,
          metadataMap := mapPut s.metadataMap (mapKey (applyDeploymentConfig o.Metadata fr)) m }
        rw [h1]
        simp
  | some ex =>
    by_cases heq : ex.Spec = o.Spec
    · simp [planFor, stamped, hg, heq] at hx
    · have hxe : x = Call.update ⟨o.Kind, applyDeploymentConfig o.Metadata fr, o.Spec⟩ := by
        simpa [planFor, stamped, hg, heq] using hx
      subst hxe
      cases hc : kc.update ⟨o.Kind, applyDeploymentConfig o.Metadata fr, o.Spec⟩ s.client with
      | mk res c =>
        cases res with
        | error e => simp [applyDesired, hg, heq, hc]
        | ok m =>
          simp only [applyDesired, hg, heq, if_false, hc]
          obtain ⟨t, h1, _⟩ := applyDesired_calls kc fr existent post { s with
            desired := mapPut s.desired (mapKey (applyDeploymentConfig o.Metadata fr)) true,
            client := c,
            calls := s.calls ++
              [Call.update ⟨o.Kind, applyDeploymentConfig o.Metadata fr, o.Spec⟩],
            numUpdated := s.numUpdated + 1,
            metadataMap := mapPut s.metadataMap (mapKey (applyDeploymentConfig o.Metadata fr)) m }
          rw [h1]
          simp

/-- A reconcile routine whose listing succeeds logs the write planned for a declared
resource as soon as the routine run on the declarations before it, without the delete
pass, returns no error: the write is logged whether it fails or not, and whatever
happens after it. -/
theorem applyKind_reaches {σ S T : Type} [DecidableEq T] [Inhabited T] (kc : KindClient σ T)
    (label : String) (fr : FissionResources S) (delete : Bool) (st c : σ)
    (allObjs : List (Resource T)) (hlist : kc.list st = (Except.ok allObjs, c))
    (pre post : List (Resource T)) (o : Resource T)
    (hpre : (applyKind kc label pre fr false st).err = none) (x : Call T)
    (hx : x ∈ planFor (indexObjs (ownedObjs fr allObjs)) (stamped fr o)) :
    x ∈ (applyKind kc label (pre ++ o :: post) fr delete st).calls := by
  have hd : (applyDesired kc fr (indexObjs (ownedObjs fr allObjs)) pre
      { client := c, calls := [Call.list], output := [], metadataMap := [], desired := [],
        numCreated := 0, numUpdated := 0, numDeleted := 0 }).1 = none := by
    simp only [applyKind, hlist] at hpre
    cases hr : applyDesired kc fr (indexObjs (ownedObjs fr allObjs)) pre
      { client := c, calls := [Call.list], output := [], metadataMap := [], desired := [],
        numCreated := 0, numUpdated := 0, numDeleted := 0 } with
    | mk e s1 =>
      cases e with
      | none => rfl
      | some err => simp [hr] at hpre
  have happ := applyDesired_append kc fr (indexObjs (ownedObjs fr allObjs)) pre (o :: post) _ hd
  have hmem := applyDesired_head_calls kc fr (indexObjs (ownedObjs fr allObjs)) o post
    (applyDesired kc fr (indexObjs (ownedObjs fr allObjs)) pre
      { client := c, calls := [Call.list], output := [], metadataMap := [], desired := [],
        numCreated := 0, numUpdated := 0, numDeleted := 0 }).2 x hx
  rw [← happ] at hmem
  simp only [applyKind, hlist]
  cases hr : applyDesired kc fr (indexObjs (ownedObjs fr allObjs)) (pre ++ o :: post)
    { client := c, calls := [Call.list], output := [], metadataMap := [], desired := [],
      numCreated := 0, numUpdated := 0, numDeleted := 0 } with
  | mk e s1 =>
    rw [hr] at hmem
    cases e with
    | some err => exact hmem
    | none =>
      cases delete with
      | false => exact hmem
      | true =>
        obtain ⟨t, h1, _⟩ := applyDeletes_calls kc (ownedObjs fr allObjs) s1
        simp only [if_true]
        cases hdel : applyDeletes kc (ownedObjs fr allObjs) s1 with
        | mk e2 s2 =>
          rw [hdel] at h1
          have : x ∈ s2.calls := by
            rw [h1]
            exact List.mem_append_left _ hmem
          cases e2 with
          | some err => exact this
          | none => exact this

/-! ## Claims about one reconcile routine -/

/-- With the delete flag false the call log of the shared routine holds no Delete. -/
theorem applyKind_no_delete {σ S T : Type} [DecidableEq T] [Inhabited T]
    (kc : KindClient σ T) (label : String) (declared : List (Resource T))
    (fr : FissionResources S) (st : σ) (m : ObjectMeta) :
    Call.delete m ∉ (applyKind kc label declared fr false st).calls := by
  intro hc
  rcases applyKind_calls_mem kc label declared fr false st _ hc with h | ⟨o, _, h | h⟩ | ⟨h, _⟩
  · cases h
  · cases h
  · cases h
  · cases h

/-- C1. Delete-off safety: with the delete flag false, whatever the client, the server
state, the resource set and its deployment config, none of the seven reconcile routines
(and the routine `applyKind` they share, on any declared list) logs a Delete call. -/
theorem reconcile_delete_off {σ S : Type} [DecidableEq S] [Inhabited S]
    (fclient : Client σ S) (fr : FissionResources S) (st : σ) (m : ObjectMeta) :
    Call.delete m ∉ (applyEnvironments fclient fr false st).calls ∧
    Call.delete m ∉ (applyPackages fclient fr false st).calls ∧
    Call.delete m ∉ (applyFunctions fclient fr false st).calls ∧
    Call.delete m ∉ (applyHTTPTriggers fclient fr false st).calls ∧
    Call.delete m ∉ (applyKubernetesWatchTriggers fclient fr false st).calls ∧
    Call.delete m ∉ (applyTimeTriggers fclient fr false st).calls ∧
    Call.delete m ∉ (applyMessageQueueTriggers fclient fr false st).calls ∧
    (∀ (T : Type) [DecidableEq T] [Inhabited T] (kc : KindClient σ T) (label : String)
      (declared : List (Resource T)),
      Call.delete m ∉ (applyKind kc label declared fr false st).calls) :=
  ⟨applyKind_no_delete _ _ _ _ _ _, applyKind_no_delete _ _ _ _ _ _,
    applyKind_no_delete _ _ _ _ _ _, applyKind_no_delete _ _ _ _ _ _,
    applyKind_no_delete _ _ _ _ _ _, applyKind_no_delete _ _ _ _ _ _,
    applyKind_no_delete _ _ _ _ _ _,
    fun _ _ _ kc label declared => applyKind_no_delete kc label declared fr st m⟩

/-- C6. Every write is stamped: an object passed to Create or Update is a declared
resource with its Kind, Spec, Namespace, Name and other metadata unchanged, whose
annotations bind `fission-deployment-name` to the config's Name and
`fission-deployment-uid` to its UID and agree with the declared annotations (none
counting as empty) on every other key. -/
theorem applyKind_writes_stamped {σ S T : Type} [DecidableEq T] [Inhabited T]
    (kc : KindClient σ T) (label : String) (declared : List (Resource T))
    (fr : FissionResources S) (delete : Bool) (st : σ) (w : Resource T)
    (hw : Call.create w ∈ (applyKind kc label declared fr delete st).calls ∨
      Call.update w ∈ (applyKind kc label declared fr delete st).calls) :
    ∃ o ∈ declared, w.Spec = o.Spec ∧ w.Kind = o.Kind ∧
      w.Metadata.Namespace = o.Metadata.Namespace ∧ w.Metadata.Name = o.Metadata.Name ∧
      w.Metadata.UID = o.Metadata.UID ∧
      w.Metadata.ResourceVersion = o.Metadata.ResourceVersion ∧
      w.Metadata.Labels = o.Metadata.Labels ∧
      ∃ a, w.Metadata.Annotations = some a ∧
        mapGet a FISSION_DEPLOYMENT_NAME_KEY = some fr.deploymentConfig.Name ∧
        mapGet a FISSION_DEPLOYMENT_UID_KEY = some fr.deploymentConfig.UID ∧
        ∀ k, k ≠ FISSION_DEPLOYMENT_NAME_KEY → k ≠ FISSION_DEPLOYMENT_UID_KEY →
          mapGet a k = mapGet (o.Metadata.Annotations.getD []) k := by
  have key : ∃ o ∈ declared, w = stamped fr o := by
    rcases hw with hc | hc
    · rcases applyKind_calls_mem kc label declared fr delete st _ hc with
        h | ⟨o, ho, h | h⟩ | ⟨_, m, h⟩
      · cases h
      · exact ⟨o, ho, by injection h⟩
      · cases h
      · cases h
    · rcases applyKind_calls_mem kc label declared fr delete st _ hc with
        h | ⟨o, ho, h | h⟩ | ⟨_, m, h⟩
      · cases h
      · cases h
      · exact ⟨o, ho, by injection h⟩
      · cases h
  obtain ⟨o, ho, rfl⟩ := key
  have hm : (stamped fr o).Metadata = applyDeploymentConfig o.Metadata fr := rfl
  refine ⟨o, ho, rfl, rfl, ?_, ?_, ?_, ?_, ?_,
    mapPut (mapPut (o.Metadata.Annotations.getD []) FISSION_DEPLOYMENT_NAME_KEY
      fr.deploymentConfig.Name) FISSION_DEPLOYMENT_UID_KEY fr.deploymentConfig.UID,
    ?_, ?_, ?_, ?_⟩
  · rw [hm, applyDeploymentConfig_eq]
  · rw [hm, applyDeploymentConfig_eq]
  · rw [hm, applyDeploymentConfig_eq]
  · rw [hm, applyDeploymentConfig_eq]
  · rw [hm, applyDeploymentConfig_eq]
  · rw [hm, applyDeploymentConfig_eq]
  · rw [mapGet_mapPut_other _ _ _ _ (Ne.symm deployment_keys_ne), mapGet_mapPut_same]
  · exact mapGet_mapPut_same _ _ _
  · intro k h1 h2
    rw [mapGet_mapPut_other _ _ _ _ (Ne.symm h2), mapGet_mapPut_other _ _ _ _ (Ne.symm h1)]

/-- Witness of C6: the one Create of a fresh apply of the environment `default/py`. -/
theorem applyKind_writes_stamped_witness :
    ∃ o ∈ [declaredEnv "default" "py" 7],
      (stamped (envSet []) (declaredEnv "default" "py" 7)).Spec = o.Spec ∧
      (stamped (envSet []) (declaredEnv "default" "py" 7)).Kind = o.Kind ∧
      (stamped (envSet []) (declaredEnv "default" "py" 7)).Metadata.Namespace =
        o.Metadata.Namespace ∧
      (stamped (envSet []) (declaredEnv "default" "py" 7)).Metadata.Name = o.Metadata.Name ∧
      (stamped (envSet []) (declaredEnv "default" "py" 7)).Metadata.UID = o.Metadata.UID ∧
      (stamped (envSet []) (declaredEnv "default" "py" 7)).Metadata.ResourceVersion =
        o.Metadata.ResourceVersion ∧
      (stamped (envSet []) (declaredEnv "default" "py" 7)).Metadata.Labels =
        o.Metadata.Labels ∧
      ∃ a, (stamped (envSet []) (declaredEnv "default" "py" 7)).Metadata.Annotations = some a ∧
        mapGet a FISSION_DEPLOYMENT_NAME_KEY = some (envSet []).deploymentConfig.Name ∧
        mapGet a FISSION_DEPLOYMENT_UID_KEY = some (envSet []).deploymentConfig.UID ∧
        ∀ k, k ≠ FISSION_DEPLOYMENT_NAME_KEY → k ≠ FISSION_DEPLOYMENT_UID_KEY →
          mapGet a k = mapGet (o.Metadata.Annotations.getD []) k :=
  applyKind_writes_stamped (staticKind []) "Environments" [declaredEnv "default" "py" 7]
    (envSet []) false () (stamped (envSet []) (declaredEnv "default" "py" 7))
    (Or.inl (by decide))

/-- C2, at a failing input. The server lists one environment of this deployment that is
no longer declared, nothing is declared, the delete flag is set and no call fails: the
routine deletes the orphan and, before it, the zero-valued metadata at the head of
`objs`, which is not in the listing and carries no ownership annotation. -/
theorem applyEnvironments_deletes_zero_head :
    (applyEnvironments (envClient (staticKind [serverEnv "default" "old" "uid-1" 3]))
        (envSet []) true ()).calls =
      [Call.list, Call.delete ObjectMeta.zero,
        Call.delete (serverEnv "default" "old" "uid-1" 3).Metadata] ∧
    (applyEnvironments (envClient (staticKind [serverEnv "default" "old" "uid-1" 3]))
        (envSet []) true ()).err = none ∧
    ObjectMeta.zero ∉ [(serverEnv "default" "old" "uid-1" 3).Metadata] ∧
    hasDeploymentConfig ObjectMeta.zero (envSet []) = false := by
  decide

/-- C3, at a failing input. The one declared environment is on the server, owned and
with an equal Spec, and the delete flag is set: the routine issues a Delete (of the
zero-valued head of `objs`) and reports one deletion; with the flag off the same input
gives no write and "no changes needed". -/
theorem applyEnvironments_reapply_with_delete :
    (applyEnvironments (envClient (staticKind [serverEnv "default" "py" "uid-1" 7]))
        (envSet [declaredEnv "default" "py" 7]) true ()).calls =
      [Call.list, Call.delete ObjectMeta.zero] ∧
    (applyEnvironments (envClient (staticKind [serverEnv "default" "py" "uid-1" 7]))
        (envSet [declaredEnv "default" "py" 7]) true ()).output =
      ["Deleted  /\n", "Environments: 0 created, 0 updated, 1 deleted\n"] ∧
    (applyEnvironments (envClient (staticKind [serverEnv "default" "py" "uid-1" 7]))
        (envSet [declaredEnv "default" "py" 7]) false ()).calls = [Call.list] ∧
    (applyEnvironments (envClient (staticKind [serverEnv "default" "py" "uid-1" 7]))
        (envSet [declaredEnv "default" "py" 7]) false ()).output =
      ["Environments: no changes needed\n"] := by
  decide

/-- C4 as stated fails: the declared environment `default/py` has the key of an owned
server environment with another Spec, but the Create of the environment declared before
it fails, the routine returns, and no Update is issued for `default/py`. (The stamp
reads the deployment config only, so `stamped (envSet [])` is the stamp of every
resource set of deployment `demo`.) -/
theorem applyEnvironments_update_not_reached :
    declaredEnv "default" "py" 8 ∈
      (envSet [declaredEnv "default" "new" 1, declaredEnv "default" "py" 8]).environments ∧
    hasDeploymentConfig (serverEnv "default" "py" "uid-1" 7).Metadata
      (envSet [declaredEnv "default" "new" 1, declaredEnv "default" "py" 8]) = true ∧
    mapKey (serverEnv "default" "py" "uid-1" 7).Metadata =
      mapKey (declaredEnv "default" "py" 8).Metadata ∧
    (serverEnv "default" "py" "uid-1" 7).Spec ≠ (declaredEnv "default" "py" 8).Spec ∧
    (applyEnvironments (envClient (refusingKind [serverEnv "default" "py" "uid-1" 7]))
        (envSet [declaredEnv "default" "new" 1, declaredEnv "default" "py" 8]) false ()).calls =
      [Call.list, Call.create (stamped (envSet []) (declaredEnv "default" "new" 1))] ∧
    (applyEnvironments (envClient (refusingKind [serverEnv "default" "py" "uid-1" 7]))
        (envSet [declaredEnv "default" "new" 1, declaredEnv "default" "py" 8])
        false ()).calls.count
      (Call.update (stamped (envSet []) (declaredEnv "default" "py" 8))) = 0 ∧
    (applyEnvironments (envClient (refusingKind [serverEnv "default" "py" "uid-1" 7]))
        (envSet [declaredEnv "default" "new" 1, declaredEnv "default" "py" 8]) false ()).err =
      some "create refused" := by
  decide

/-- C4, amended. For a declared resource whose key is the key of an owned server-listed
resource (owned server keys distinct), in every run, failing ones included: if the two
Specs are equal no Update is issued for it, whatever the metadata of the two; it never
gets a Create; and it gets at most one Update for each time it is declared. In a run
that returns no error, if the Specs differ it gets one Update for each time it is
declared, exactly one when the declared keys are distinct. And in every run, if the
Specs differ, an Update is issued for it as soon as the loop reaches it, that is when
the routine run on the declarations before it (without the delete pass) returns no
error: the Update is issued whether the client accepts it or not, and whatever fails
after it. -/
theorem applyKind_update_iff_spec_differs {σ S T : Type} [DecidableEq T] [Inhabited T]
    (kc : KindClient σ T) (label : String) (declared : List (Resource T))
    (fr : FissionResources S) (delete : Bool) (st c : σ) (allObjs : List (Resource T))
    (hlist : kc.list st = (Except.ok allObjs, c))
    (hkeys : ((allObjs.filter (fun x => hasDeploymentConfig x.Metadata fr)).map
      (fun x => mapKey x.Metadata)).Nodup)
    (o e : Resource T) (he : e ∈ allObjs)
    (hown : hasDeploymentConfig e.Metadata fr = true)
    (hkey : mapKey e.Metadata = mapKey o.Metadata) :
    (e.Spec = o.Spec →
      Call.update (stamped fr o) ∉ (applyKind kc label declared fr delete st).calls) ∧
    Call.create (stamped fr o) ∉ (applyKind kc label declared fr delete st).calls ∧
    (applyKind kc label declared fr delete st).calls.count (Call.update (stamped fr o)) ≤
      (declared.map (stamped fr)).count (stamped fr o) ∧
    ((applyKind kc label declared fr delete st).err = none → e.Spec ≠ o.Spec →
      (applyKind kc label declared fr delete st).calls.count (Call.update (stamped fr o)) =
        (declared.map (stamped fr)).count (stamped fr o)) ∧
    ((applyKind kc label declared fr delete st).err = none → e.Spec ≠ o.Spec →
      o ∈ declared → (declared.map (fun d => mapKey d.Metadata)).Nodup →
      (applyKind kc label declared fr delete st).calls.count (Call.update (stamped fr o)) = 1) ∧
    (∀ pre post : List (Resource T), declared = pre ++ o :: post →
      (applyKind kc label pre fr false st).err = none → e.Spec ≠ o.Spec →
      Call.update (stamped fr o) ∈ (applyKind kc label declared fr delete st).calls) := by
  have hget : mapGet (indexObjs (ownedObjs fr allObjs)) (mapKey (stamped fr o).Metadata) =
      some e := by
    rw [mapKey_stamped, ← hkey]
    exact existent_owned fr allObjs e he hown hkeys
  have hle := count_applyKind_write_le kc label declared fr delete st c allObjs hlist
    (stamped fr o)
  have hplan := mem_planFor_of_mem_calls kc label declared fr delete st c allObjs hlist
    (stamped fr o)
  have hdiff : (applyKind kc label declared fr delete st).err = none → e.Spec ≠ o.Spec →
      (applyKind kc label declared fr delete st).calls.count (Call.update (stamped fr o)) =
        (declared.map (stamped fr)).count (stamped fr o) := by
    intro hok hne
    rw [count_applyKind_write kc label declared fr delete st c allObjs hlist hok
      (stamped fr o) _ (Or.inr rfl)]
    simp [planFor, hget, spec_stamped, hne]
  refine ⟨?_, ?_, ?_, hdiff, ?_, ?_⟩
  · intro heq hmem
    have := hplan _ (Or.inr rfl) hmem
    simp [planFor, hget, spec_stamped, heq] at this
  · intro hmem
    have := hplan _ (Or.inl rfl) hmem
    by_cases heq : e.Spec = o.Spec <;> simp [planFor, hget, spec_stamped, heq] at this
  · refine le_trans (hle _ (Or.inr rfl)) ?_
    by_cases heq : e.Spec = o.Spec <;> simp [planFor, hget, spec_stamped, heq]
  · intro hok hne ho hnd
    rw [hdiff hok hne]
    exact count_stamped_of_nodup fr declared o ho hnd
  · intro pre post hdecl hpre hne
    rw [hdecl]
    exact applyKind_reaches kc label fr delete st c allObjs hlist pre post o hpre _
      (by simp [planFor, hget, spec_stamped, hne])

/-- Witness of C4, amended: the environment `default/py` re-applied with a changed Spec
gets exactly one Update. -/
theorem applyKind_update_iff_spec_differs_witness :
    (applyKind (staticKind [serverEnv "default" "py" "uid-1" 7]) "Environments"
        [declaredEnv "default" "py" 8] (envSet []) true ()).calls.count
      (Call.update (stamped (envSet []) (declaredEnv "default" "py" 8))) = 1 :=
  (applyKind_update_iff_spec_differs (staticKind [serverEnv "default" "py" "uid-1" 7])
    "Environments" [declaredEnv "default" "py" 8] (envSet []) true () ()
    [serverEnv "default" "py" "uid-1" 7] rfl (by decide)
    (declaredEnv "default" "py" 8) (serverEnv "default" "py" "uid-1" 7) (by decide)
    (by decide) (by decide)).2.2.2.2.1 (by decide) (by decide) (by decide) (by decide)

/-- C5 as stated fails: two environments with distinct keys are declared, the server
lists nothing, and the Create of the first fails; the routine returns, so the second,
which no owned server resource matches, gets no Create. -/
theorem applyEnvironments_create_not_reached :
    ((envSet [declaredEnv "default" "new" 1, declaredEnv "default" "py" 8]).environments.map
      (fun d => mapKey d.Metadata)).Nodup ∧
    declaredEnv "default" "py" 8 ∈
      (envSet [declaredEnv "default" "new" 1, declaredEnv "default" "py" 8]).environments ∧
    (applyEnvironments (envClient (refusingKind []))
        (envSet [declaredEnv "default" "new" 1, declaredEnv "default" "py" 8]) false ()).calls =
      [Call.list, Call.create (stamped (envSet []) (declaredEnv "default" "new" 1))] ∧
    Call.create (stamped (envSet []) (declaredEnv "default" "py" 8)) ∉
      (applyEnvironments (envClient (refusingKind []))
        (envSet [declaredEnv "default" "new" 1, declaredEnv "default" "py" 8]) false ()).calls ∧
    (applyEnvironments (envClient (refusingKind []))
        (envSet [declaredEnv "default" "new" 1, declaredEnv "default" "py" 8]) false ()).err =
      some "create refused" := by
  decide

/-- C5, amended. For every server listing and every declared resource, in every run,
failing ones included: a Create is issued for it only if no owned server-listed
resource has its key (a resource of another deployment or without annotations does not
count), never together with an Update, and exactly once when the declared keys are
distinct. In a run that returns no error, a declared resource whose key is not `":"`
and whose key no owned server-listed resource has does get its Create. And in every
run, such a resource gets its Create as soon as the loop reaches it, that is when the
routine run on the declarations before it (without the delete pass) returns no error:
the Create is issued whether the client accepts it or not, and whatever fails after
it. -/
theorem applyKind_create_iff_not_owned {σ S T : Type} [DecidableEq T] [Inhabited T]
    (kc : KindClient σ T) (label : String) (declared : List (Resource T))
    (fr : FissionResources S) (delete : Bool) (st c : σ) (allObjs : List (Resource T))
    (hlist : kc.list st = (Except.ok allObjs, c)) (o : Resource T) :
    (Call.create (stamped fr o) ∈ (applyKind kc label declared fr delete st).calls →
      ¬ ∃ e ∈ allObjs, hasDeploymentConfig e.Metadata fr = true ∧
        mapKey e.Metadata = mapKey o.Metadata) ∧
    (Call.create (stamped fr o) ∈ (applyKind kc label declared fr delete st).calls →
      Call.update (stamped fr o) ∉ (applyKind kc label declared fr delete st).calls) ∧
    ((declared.map (fun d => mapKey d.Metadata)).Nodup →
      Call.create (stamped fr o) ∈ (applyKind kc label declared fr delete st).calls →
      (applyKind kc label declared fr delete st).calls.count (Call.create (stamped fr o)) = 1) ∧
    ((applyKind kc label declared fr delete st).err = none → o ∈ declared →
      mapKey o.Metadata ≠ ":" →
      (¬ ∃ e ∈ allObjs, hasDeploymentConfig e.Metadata fr = true ∧
        mapKey e.Metadata = mapKey o.Metadata) →
      Call.create (stamped fr o) ∈ (applyKind kc label declared fr delete st).calls) ∧
    (∀ pre post : List (Resource T), declared = pre ++ o :: post →
      (applyKind kc label pre fr false st).err = none → mapKey o.Metadata ≠ ":" →
      (¬ ∃ e ∈ allObjs, hasDeploymentConfig e.Metadata fr = true ∧
        mapKey e.Metadata = mapKey o.Metadata) →
      Call.create (stamped fr o) ∈ (applyKind kc label declared fr delete st).calls) := by
  have hle := count_applyKind_write_le kc label declared fr delete st c allObjs hlist
    (stamped fr o)
  have hplan := mem_planFor_of_mem_calls kc label declared fr delete st c allObjs hlist
    (stamped fr o)
  have hnone : Call.create (stamped fr o) ∈ (applyKind kc label declared fr delete st).calls →
      mapGet (indexObjs (ownedObjs fr allObjs)) (mapKey o.Metadata) = none := by
    intro hmem
    have := hplan _ (Or.inl rfl) hmem
    cases hg : mapGet (indexObjs (ownedObjs fr allObjs)) (mapKey o.Metadata) with
    | none => rfl
    | some e =>
      by_cases heq : e.Spec = o.Spec <;>
        simp [planFor, mapKey_stamped, hg, spec_stamped, heq] at this
  refine ⟨?_, ?_, ?_, ?_, ?_⟩
  · intro hmem hex
    have h1 := existent_isSome_of_owned fr allObjs (mapKey o.Metadata) hex
    rw [hnone hmem] at h1
    cases h1
  · intro hmem hupd
    have := hplan _ (Or.inr rfl) hupd
    simp [planFor, mapKey_stamped, hnone hmem] at this
  · intro hnd hmem
    have h1 := hle _ (Or.inl rfl)
    have h2 := count_stamped_le_one fr declared (stamped fr o) hnd
    have h3 : (planFor (indexObjs (ownedObjs fr allObjs)) (stamped fr o)).count
        (Call.create (stamped fr o)) = 1 := by
      simp [planFor, mapKey_stamped, hnone hmem]
    rw [h3, Nat.mul_one] at h1
    have h4 : 0 < (applyKind kc label declared fr delete st).calls.count
        (Call.create (stamped fr o)) := List.count_pos_iff.mpr hmem
    omega
  · intro hok ho hk hno
    have hiff := existent_isSome_iff fr allObjs (mapKey o.Metadata) hk
    have hg : mapGet (indexObjs (ownedObjs fr allObjs)) (mapKey o.Metadata) = none := by
      cases hg : mapGet (indexObjs (ownedObjs fr allObjs)) (mapKey o.Metadata) with
      | none => rfl
      | some e => exact absurd (hiff.mp (by simp [hg])) hno
    have hc := count_applyKind_write kc label declared fr delete st c allObjs hlist hok
      (stamped fr o) (Call.create (stamped fr o)) (Or.inl rfl)
    have hpos : 0 < (declared.map (stamped fr)).count (stamped fr o) :=
      List.count_pos_iff.mpr (List.mem_map_of_mem _ ho)
    have h3 : (planFor (indexObjs (ownedObjs fr allObjs)) (stamped fr o)).count
        (Call.create (stamped fr o)) = 1 := by
      simp [planFor, mapKey_stamped, hg]
    rw [h3, Nat.mul_one] at hc
    exact List.count_pos_iff.mp (by omega)
  · intro pre post hdecl hpre hk hno
    have hiff := existent_isSome_iff fr allObjs (mapKey o.Metadata) hk
    have hg : mapGet (indexObjs (ownedObjs fr allObjs)) (mapKey o.Metadata) = none := by
      cases hg : mapGet (indexObjs (ownedObjs fr allObjs)) (mapKey o.Metadata) with
      | none => rfl
      | some e => exact absurd (hiff.mp (by simp [hg])) hno
    rw [hdecl]
    exact applyKind_reaches kc label fr delete st c allObjs hlist pre post o hpre _
      (by simp [planFor, mapKey_stamped, hg])

/-- Witness of C5, amended: the server lists `default/py` under another deployment UID;
the declared `default/py` gets a Create. -/
theorem applyKind_create_iff_not_owned_witness :
    Call.create (stamped (envSet []) (declaredEnv "default" "py" 7)) ∈
      (applyKind (staticKind [serverEnv "default" "py" "other-uid" 7]) "Environments"
        [declaredEnv "default" "py" 7] (envSet []) true ()).calls :=
  (applyKind_create_iff_not_owned (staticKind [serverEnv "default" "py" "other-uid" 7])
    "Environments" [declaredEnv "default" "py" 7] (envSet []) true () ()
    [serverEnv "default" "py" "other-uid" 7] rfl
    (declaredEnv "default" "py" 7)).2.2.2.1 (by decide) (by decide) (by decide) (by decide)

/-! ## The orchestrator -/

theorem stagesWithin_append {S : Type} (n m : Nat) (l l2 : List (ApiCall S))
    (hl : stagesWithin n l) (hnm : n ≤ m) (h2 : ∀ x ∈ l2, x.stage = m) :
    stagesWithin m (l ++ l2) := by
  obtain ⟨hp, hb⟩ := hl
  constructor
  · rw [List.map_append, List.pairwise_append]
    refine ⟨hp, ?_, ?_⟩
    · rw [List.pairwise_map]
      apply List.pairwise_of_forall_mem_list
      intro a ha b hb2
      rw [h2 a ha, h2 b hb2]
    · intro a ha b hb2
      obtain ⟨x, hx, rfl⟩ := List.mem_map.mp ha
      obtain ⟨y, hy, rfl⟩ := List.mem_map.mp hb2
      rw [h2 y hy]
      exact le_trans (hb x hx) hnm
  · intro x hx
    rcases List.mem_append.mp hx with h | h
    · exact le_trans (hb x h) hnm
    · exact le_of_eq (h2 x h)

theorem stagesWithin_archives {S : Type} (l : List ArchiveCall) :
    stagesWithin 0 (l.map (ApiCall.archives : ArchiveCall → ApiCall S)) := by
  have := stagesWithin_append 0 0 ([] : List (ApiCall S)) (l.map ApiCall.archives)
    ⟨by simp, by simp⟩ (le_refl 0) (by
      intro x hx
      obtain ⟨y, _, rfl⟩ := List.mem_map.mp hx
      rfl)
  simpa using this

/-- C9. Fixed order and abort on first failure. With `ra`, `re`, ..., `rm` the results of
the eight stages, each started in the server state the stage before it left: the log of
`apply` follows the stage order archives, environments, packages, functions, HTTP
triggers, Kubernetes watch triggers, time triggers, message queue triggers; an error of
the archive stage is returned as it is; when the first stage to fail is the reconcile of
a kind, `apply` returns that kind's label wrapping the cause and its log holds no call
of a later stage; and `apply` returns nil exactly when every stage did, its log then
being the eight logs one after the other. -/
theorem apply_order_abort {σ S : Type} [DecidableEq S] [Inhabited S] (fclient : Client σ S)
    (fs : LocalFiles) (range : MapRange) (specDir : String) (fr : FissionResources S)
    (delete : Bool) (st : σ) :
    let ra := applyArchives fclient fs range specDir fr st
    let re := applyEnvironments fclient ra.fr delete ra.client
    let rp := applyPackages fclient ra.fr delete re.client
    let rf := applyFunctions fclient ra.fr delete rp.client
    let rh := applyHTTPTriggers fclient ra.fr delete rf.client
    let rk := applyKubernetesWatchTriggers fclient ra.fr delete rh.client
    let rt := applyTimeTriggers fclient ra.fr delete rk.client
    let rm := applyMessageQueueTriggers fclient ra.fr delete rt.client
    let r := apply fclient fs range specDir fr delete st
    (r.calls.map ApiCall.stage).Pairwise (fun a b => a ≤ b) ∧
    (∀ err, ra.err = some err → r.err = some err ∧ stagesWithin 0 r.calls) ∧
    (ra.err = none → ∀ err, re.err = some err →
      r.err = some ("environment apply failed: " ++ err) ∧ stagesWithin 1 r.calls) ∧
    (ra.err = none → re.err = none → ∀ err, rp.err = some err →
      r.err = some ("package apply failed: " ++ err) ∧ stagesWithin 2 r.calls) ∧
    (ra.err = none → re.err = none → rp.err = none → ∀ err, rf.err = some err →
      r.err = some ("function apply failed: " ++ err) ∧ stagesWithin 3 r.calls) ∧
    (ra.err = none → re.err = none → rp.err = none → rf.err = none →
      ∀ err, rh.err = some err →
      r.err = some ("HTTPTrigger apply failed: " ++ err) ∧ stagesWithin 4 r.calls) ∧
    (ra.err = none → re.err = none → rp.err = none → rf.err = none → rh.err = none →
      ∀ err, rk.err = some err →
      r.err = some ("KubernetesWatchTrigger apply failed: " ++ err) ∧
        stagesWithin 5 r.calls) ∧
    (ra.err = none → re.err = none → rp.err = none → rf.err = none → rh.err = none →
      rk.err = none → ∀ err, rt.err = some err →
      r.err = some ("TimeTrigger apply failed: " ++ err) ∧ stagesWithin 6 r.calls) ∧
    (ra.err = none → re.err = none → rp.err = none → rf.err = none → rh.err = none →
      rk.err = none → rt.err = none → ∀ err, rm.err = some err →
      r.err = some ("MessageQueueTrigger apply failed: " ++ err) ∧ stagesWithin 7 r.calls) ∧
    (r.err = none ↔
      ra.err = none ∧ re.err = none ∧ rp.err = none ∧ rf.err = none ∧ rh.err = none ∧
        rk.err = none ∧ rt.err = none ∧ rm.err = none) ∧
    (r.err = none →
      r.calls = ra.calls.map ApiCall.archives ++ re.calls.map ApiCall.environments ++
        rp.calls.map ApiCall.packages ++ rf.calls.map ApiCall.functions ++
        rh.calls.map ApiCall.httpTriggers ++ rk.calls.map ApiCall.kubernetesWatchTriggers ++
        rt.calls.map ApiCall.timeTriggers ++ rm.calls.map ApiCall.messageQueueTriggers) := by
  intro ra re rp rf rh rk rt rm r
  have c0 : stagesWithin 0 (ra.calls.map (ApiCall.archives : ArchiveCall → ApiCall S)) :=
    stagesWithin_archives _
  have c1 := stagesWithin_append 0 1 _ (re.calls.map ApiCall.environments) c0 (by omega) (by
    intro x hx
    obtain ⟨y, _, rfl⟩ := List.mem_map.mp hx
    rfl)
  have c2 := stagesWithin_append 1 2 _ (rp.calls.map ApiCall.packages) c1 (by omega) (by
    intro x hx
    obtain ⟨y, _, rfl⟩ := List.mem_map.mp hx
    rfl)
  have c3 := stagesWithin_append 2 3 _ (rf.calls.map ApiCall.functions) c2 (by omega) (by
    intro x hx
    obtain ⟨y, _, rfl⟩ := List.mem_map.mp hx
    rfl)
  have c4 := stagesWithin_append 3 4 _ (rh.calls.map ApiCall.httpTriggers) c3 (by omega) (by
    intro x hx
    obtain ⟨y, _, rfl⟩ := List.mem_map.mp hx
    rfl)
  have c5 := stagesWithin_append 4 5 _ (rk.calls.map ApiCall.kubernetesWatchTriggers) c4
    (by omega) (by
    intro x hx
    obtain ⟨y, _, rfl⟩ := List.mem_map.mp hx
    rfl)
  have c6 := stagesWithin_append 5 6 _ (rt.calls.map ApiCall.timeTriggers) c5 (by omega) (by
    intro x hx
    obtain ⟨y, _, rfl⟩ := List.mem_map.mp hx
    rfl)
  have c7 := stagesWithin_append 6 7 _ (rm.calls.map ApiCall.messageQueueTriggers) c6
    (by omega) (by
    intro x hx
    obtain ⟨y, _, rfl⟩ := List.mem_map.mp hx
    rfl)
  have f0 : ∀ e, ra.err = some e →
      r = ⟨some e, ra.client,
        ra.calls.map ApiCall.archives⟩ := by
    intro e h0
    simp only [ra] at h0
    simp only [r, apply, h0]
  have f1 : ra.err = none → ∀ e, re.err = some e →
      r = ⟨some (Wrap e "environment apply failed"), re.client,
        ra.calls.map ApiCall.archives ++ re.calls.map ApiCall.environments⟩ := by
    intro h0 e h1
    simp only [ra, re] at h0 h1
    simp only [r, apply, h0, h1]
  have f2 : ra.err = none → re.err = none → ∀ e, rp.err = some e →
      r = ⟨some (Wrap e "package apply failed"), rp.client,
        ra.calls.map ApiCall.archives ++ re.calls.map ApiCall.environments ++ rp.calls.map ApiCall.packages⟩ := by
    intro h0 h1 e h2
    simp only [ra, re, rp] at h0 h1 h2
    simp only [r, apply, h0, h1, h2]
  have f3 : ra.err = none → re.err = none → rp.err = none → ∀ e, rf.err = some e →
      r = ⟨some (Wrap e "function apply failed"), rf.client,
        ra.calls.map ApiCall.archives ++ re.calls.map ApiCall.environments ++ rp.calls.map ApiCall.packages ++ rf.calls.map ApiCall.functions⟩ := by
    intro h0 h1 h2 e h3
    simp only [ra, re, rp, rf] at h0 h1 h2 h3
    simp only [r, apply, h0, h1, h2, h3]
  have f4 : ra.err = none → re.err = none → rp.err = none → rf.err = none → ∀ e, rh.err = some e →
      r = ⟨some (Wrap e "HTTPTrigger apply failed"), rh.client,
        ra.calls.map ApiCall.archives ++ re.calls.map ApiCall.environments ++ rp.calls.map ApiCall.packages ++ rf.calls.map ApiCall.functions ++ rh.calls.map ApiCall.httpTriggers⟩ := by
    intro h0 h1 h2 h3 e h4
    simp only [ra, re, rp, rf, rh] at h0 h1 h2 h3 h4
    simp only [r, apply, h0, h1, h2, h3, h4]
  have f5 : ra.err = none → re.err = none → rp.err = none → rf.err = none → rh.err = none → ∀ e, rk.err = some e →
      r = ⟨some (Wrap e "KubernetesWatchTrigger apply failed"), rk.client,
        ra.calls.map ApiCall.archives ++ re.calls.map ApiCall.environments ++ rp.calls.map ApiCall.packages ++ rf.calls.map ApiCall.functions ++ rh.calls.map ApiCall.httpTriggers ++ rk.calls.map ApiCall.kubernetesWatchTriggers⟩ := by
    intro h0 h1 h2 h3 h4 e h5
    simp only [ra, re, rp, rf, rh, rk] at h0 h1 h2 h3 h4 h5
    simp only [r, apply, h0, h1, h2, h3, h4, h5]
  have f6 : ra.err = none → re.err = none → rp.err = none → rf.err = none → rh.err = none → rk.err = none → ∀ e, rt.err = some e →
      r = ⟨some (Wrap e "TimeTrigger apply failed"), rt.client,
        ra.calls.map ApiCall.archives ++ re.calls.map ApiCall.environments ++ rp.calls.map ApiCall.packages ++ rf.calls.map ApiCall.functions ++ rh.calls.map ApiCall.httpTriggers ++ rk.calls.map ApiCall.kubernetesWatchTriggers ++ rt.calls.map ApiCall.timeTriggers⟩ := by
    intro h0 h1 h2 h3 h4 h5 e h6
    simp only [ra, re, rp, rf, rh, rk, rt] at h0 h1 h2 h3 h4 h5 h6
    simp only [r, apply, h0, h1, h2, h3, h4, h5, h6]
  have f7 : ra.err = none → re.err = none → rp.err = none → rf.err = none → rh.err = none → rk.err = none → rt.err = none → ∀ e, rm.err = some e →
      r = ⟨some (Wrap e "MessageQueueTrigger apply failed"), rm.client,
        ra.calls.map ApiCall.archives ++ re.calls.map ApiCall.environments ++ rp.calls.map ApiCall.packages ++ rf.calls.map ApiCall.functions ++ rh.calls.map ApiCall.httpTriggers ++ rk.calls.map ApiCall.kubernetesWatchTriggers ++ rt.calls.map ApiCall.timeTriggers ++ rm.calls.map ApiCall.messageQueueTriggers⟩ := by
    intro h0 h1 h2 h3 h4 h5 h6 e h7
    simp only [ra, re, rp, rf, rh, rk, rt, rm] at h0 h1 h2 h3 h4 h5 h6 h7
    simp only [r, apply, h0, h1, h2, h3, h4, h5, h6, h7]
  have f8 : ra.err = none → re.err = none → rp.err = none → rf.err = none → rh.err = none → rk.err = none → rt.err = none → rm.err = none →
      r = ⟨none, rm.client,
        ra.calls.map ApiCall.archives ++ re.calls.map ApiCall.environments ++ rp.calls.map ApiCall.packages ++ rf.calls.map ApiCall.functions ++ rh.calls.map ApiCall.httpTriggers ++ rk.calls.map ApiCall.kubernetesWatchTriggers ++ rt.calls.map ApiCall.timeTriggers ++ rm.calls.map ApiCall.messageQueueTriggers⟩ := by
    intro h0 h1 h2 h3 h4 h5 h6 h7
    simp only [ra, re, rp, rf, rh, rk, rt, rm] at h0 h1 h2 h3 h4 h5 h6 h7
    simp only [r, apply, h0, h1, h2, h3, h4, h5, h6, h7]
  have glob : (r.calls.map ApiCall.stage).Pairwise (fun a b => a ≤ b) ∧
      (r.err = none ↔
        ra.err = none ∧ re.err = none ∧ rp.err = none ∧ rf.err = none ∧ rh.err = none ∧
          rk.err = none ∧ rt.err = none ∧ rm.err = none) ∧
      (r.err = none →
        r.calls = ra.calls.map ApiCall.archives ++ re.calls.map ApiCall.environments ++ rp.calls.map ApiCall.packages ++ rf.calls.map ApiCall.functions ++ rh.calls.map ApiCall.httpTriggers ++ rk.calls.map ApiCall.kubernetesWatchTriggers ++ rt.calls.map ApiCall.timeTriggers ++ rm.calls.map ApiCall.messageQueueTriggers) := by
    cases h0 : ra.err with
    | some e0 =>
      rw [f0 e0 h0]
      exact ⟨c0.1, by simp, by simp⟩
    | none =>
    cases h1 : re.err with
    | some e1 =>
      rw [f1 h0 e1 h1]
      exact ⟨c1.1, by simp, by simp⟩
    | none =>
    cases h2 : rp.err with
    | some e2 =>
      rw [f2 h0 h1 e2 h2]
      exact ⟨c2.1, by simp, by simp⟩
    | none =>
    cases h3 : rf.err with
    | some e3 =>
      rw [f3 h0 h1 h2 e3 h3]
      exact ⟨c3.1, by simp, by simp⟩
    | none =>
    cases h4 : rh.err with
    | some e4 =>
      rw [f4 h0 h1 h2 h3 e4 h4]
      exact ⟨c4.1, by simp, by simp⟩
    | none =>
    cases h5 : rk.err with
    | some e5 =>
      rw [f5 h0 h1 h2 h3 h4 e5 h5]
      exact ⟨c5.1, by simp, by simp⟩
    | none =>
    cases h6 : rt.err with
    | some e6 =>
      rw [f6 h0 h1 h2 h3 h4 h5 e6 h6]
      exact ⟨c6.1, by simp, by simp⟩
    | none =>
    cases h7 : rm.err with
    | some e7 =>
      rw [f7 h0 h1 h2 h3 h4 h5 h6 e7 h7]
      exact ⟨c7.1, by simp, by simp⟩
    | none =>
    rw [f8 h0 h1 h2 h3 h4 h5 h6 h7]
    exact ⟨c7.1, by simp, by simp⟩
  exact ⟨glob.1,
    fun e h => by
      rw [f0 e h]
      exact ⟨rfl, c0⟩,
    fun h0 e h => by
      rw [f1 h0 e h]
      exact ⟨rfl, c1⟩,
    fun h0 h1 e h => by
      rw [f2 h0 h1 e h]
      exact ⟨rfl, c2⟩,
    fun h0 h1 h2 e h => by
      rw [f3 h0 h1 h2 e h]
      exact ⟨rfl, c3⟩,
    fun h0 h1 h2 h3 e h => by
      rw [f4 h0 h1 h2 h3 e h]
      exact ⟨rfl, c4⟩,
    fun h0 h1 h2 h3 h4 e h => by
      rw [f5 h0 h1 h2 h3 h4 e h]
      exact ⟨rfl, c5⟩,
    fun h0 h1 h2 h3 h4 h5 e h => by
      rw [f6 h0 h1 h2 h3 h4 h5 e h]
      exact ⟨rfl, c6⟩,
    fun h0 h1 h2 h3 h4 h5 h6 e h => by
      rw [f7 h0 h1 h2 h3 h4 h5 h6 e h]
      exact ⟨rfl, c7⟩,
    glob.2.1,
    glob.2.2⟩

/-- Witness of C9: the Create of the one declared environment is refused; `apply`
returns the environment label wrapping the cause, and its log stops at stage 1. -/
theorem apply_order_abort_witness :
    (apply (envClient (refusingKind [])) demoFiles insertionOrder "specs"
        (envSet [declaredEnv "default" "py" 7]) false ()).err =
      some ("environment apply failed: " ++ "create refused") ∧
    stagesWithin 1 (apply (envClient (refusingKind [])) demoFiles insertionOrder "specs"
        (envSet [declaredEnv "default" "py" 7]) false ()).calls :=
  (apply_order_abort (envClient (refusingKind [])) demoFiles insertionOrder "specs"
    (envSet [declaredEnv "default" "py" 7]) false ()).2.2.1 (by decide) "create refused"
    (by decide)

/-! ## Archives -/

/-- Whatever happens, `applyArchives` leaves the resource set as it was given. -/
theorem applyArchives_fr {σ S : Type} (fclient : Client σ S) (fs : LocalFiles)
    (range : MapRange) (specDir : String) (fr : FissionResources S) (st : σ) :
    (applyArchives fclient fs range specDir fr st).fr = fr := by
  unfold applyArchives
  split
  · rfl
  · split <;> rfl

/-- With one entry in the archive map every range visits the same: the run is that of
the insertion order. -/
theorem applyArchives_one_entry {σ S : Type} (fclient : Client σ S) (fs : LocalFiles)
    (range : MapRange) (specDir : String) (fr : FissionResources S) (st : σ)
    (e : String × Archive)
    (hbuild : buildArchives fs specDir fr.archiveUploadSpecs [] = Except.ok [e]) :
    applyArchives fclient fs range specDir fr st =
      applyArchives fclient fs insertionOrder specDir fr st := by
  have h : range.order [e] = [e] := List.perm_singleton.mp (range.perm [e])
  simp only [applyArchives, hbuild, h, insertionOrder]

/-- C10, at a failing input. The package `default/hello` has the source URL
`archive://src` and the archive upload spec `src` builds a literal archive.
`applyArchives` returns nil with `archive://src` resolved in its map, but the package in
the resource set it leaves behind still has type `url` and URL `archive://src`, and
`apply` then sends this package to the server in the Create of the package stage. The
order of the map range plays no part: the last conjunct is for every range. -/
theorem applyArchives_leaves_archive_url :
    (applyArchives (envClient (staticKind [])) demoFiles insertionOrder "specs"
        archiveSet ()).err = none ∧
    (applyArchives (envClient (staticKind [])) demoFiles insertionOrder "specs"
        archiveSet ()).archiveFiles =
      [("archive://src",
        { Type_ := ArchiveTypeLiteral, Literal := some [104, 105], URL := "",
          Checksum := ⟨"", ""⟩ })] ∧
    (applyArchives (envClient (staticKind [])) demoFiles insertionOrder "specs"
        archiveSet ()).fr.packages.map
        (fun pkg => (pkg.Spec.Source.Type_, pkg.Spec.Source.URL)) =
      [("url", "archive://src")] ∧
    (apply (envClient (staticKind [])) demoFiles insertionOrder "specs" archiveSet
        false ()).err = none ∧
    (apply (envClient (staticKind [])) demoFiles insertionOrder "specs" archiveSet
        false ()).calls =
      [ApiCall.archives ArchiveCall.packageList,
       ApiCall.environments Call.list,
       ApiCall.packages Call.list,
       ApiCall.packages (Call.create (stamped archiveSet helloPackage)),
       ApiCall.functions Call.list,
       ApiCall.httpTriggers Call.list,
       ApiCall.kubernetesWatchTriggers Call.list,
       ApiCall.timeTriggers Call.list,
       ApiCall.messageQueueTriggers Call.list] ∧
    (stamped archiveSet helloPackage).Spec.Source.URL = "archive://src" ∧
    (∀ range : MapRange,
      (applyArchives (envClient (staticKind [])) demoFiles range "specs"
          archiveSet ()).err = none ∧
      (applyArchives (envClient (staticKind [])) demoFiles range "specs"
          archiveSet ()).fr.packages.map
          (fun pkg => (pkg.Spec.Source.Type_, pkg.Spec.Source.URL)) =
        [("url", "archive://src")]) :=
  ⟨by decide, by decide, by decide, by decide, by decide, by decide, fun range => by
    rw [applyArchives_one_entry (envClient (staticKind [])) demoFiles range "specs"
      archiveSet () ("archive://src", ⟨ArchiveTypeLiteral, some [104, 105], "", ⟨"", ""⟩⟩) rfl]
    decide⟩

/-- The builder in terms of its root directory and its artifact. -/
theorem localArchiveFromSpec_eq (fs : LocalFiles) (specDir : String) (aus : ArchiveUploadSpec)
    (files : List String) (archiveFileName : String)
    (hglob : globFiles fs (rootDirOf fs specDir aus) aus.IncludeGlobs [] = Except.ok files)
    (hfiles : files.length ≠ 0)
    (hbuilt : artifactOf fs aus files = Except.ok archiveFileName) :
    localArchiveFromSpec fs specDir aus =
      if fs.fileSize archiveFileName < fs.ArchiveLiteralSizeLimit then
        Except.ok { Type_ := ArchiveTypeLiteral, Literal := fs.getContents archiveFileName,
                    URL := "", Checksum := ⟨"", ""⟩ }
      else
        match fs.fileChecksum archiveFileName with
        | Except.error err =>
          Except.error ("failed to calculate archive checksum for " ++ aus.Name ++ " (" ++
            archiveFileName ++ "): " ++ err)
        | Except.ok csum =>
          Except.ok { Type_ := ArchiveTypeUrl, Literal := none, URL := archiveFileName,
                      Checksum := csum } := by
  unfold rootDirOf at hglob
  unfold artifactOf at hbuilt
  simp only [localArchiveFromSpec, hglob, hfiles, if_false, hbuilt]

/-- C13 as stated fails: an artifact of exactly `ArchiveLiteralSizeLimit` bytes is
emitted as a URL archive with the file path and the checksum, not as a literal. -/
theorem localArchiveFromSpec_at_limit_is_url :
    (filesOfSize 262144).fileSize "/repo/hello.py" =
      (filesOfSize 262144).ArchiveLiteralSizeLimit ∧
    artifactOf (filesOfSize 262144) srcUpload ["/repo/hello.py"] = Except.ok "/repo/hello.py" ∧
    localArchiveFromSpec (filesOfSize 262144) "specs" srcUpload =
      Except.ok { Type_ := ArchiveTypeUrl, Literal := none, URL := "/repo/hello.py",
                  Checksum := ⟨"sha256", "ab"⟩ } :=
  ⟨rfl, rfl, rfl⟩

/-- C13, amended. For an artifact `archiveFileName` built from the matched files, of
size `n = fs.fileSize archiveFileName`: when `n < ArchiveLiteralSizeLimit` the builder
returns a literal archive holding the file contents; when `n ≥ ArchiveLiteralSizeLimit`
and the checksum is computed it returns a URL archive with the file path and that
checksum; in particular an artifact of exactly the limit is emitted as URL. -/
theorem localArchiveFromSpec_boundary (fs : LocalFiles) (specDir : String)
    (aus : ArchiveUploadSpec) (files : List String) (archiveFileName : String)
    (hglob : globFiles fs (rootDirOf fs specDir aus) aus.IncludeGlobs [] = Except.ok files)
    (hfiles : files.length ≠ 0)
    (hbuilt : artifactOf fs aus files = Except.ok archiveFileName) :
    (fs.fileSize archiveFileName < fs.ArchiveLiteralSizeLimit →
      localArchiveFromSpec fs specDir aus =
        Except.ok { Type_ := ArchiveTypeLiteral, Literal := fs.getContents archiveFileName,
                    URL := "", Checksum := ⟨"", ""⟩ }) ∧
    (fs.ArchiveLiteralSizeLimit ≤ fs.fileSize archiveFileName →
      ∀ csum, fs.fileChecksum archiveFileName = Except.ok csum →
      localArchiveFromSpec fs specDir aus =
        Except.ok { Type_ := ArchiveTypeUrl, Literal := none, URL := archiveFileName,
                    Checksum := csum }) ∧
    (fs.fileSize archiveFileName = fs.ArchiveLiteralSizeLimit →
      ∀ csum, fs.fileChecksum archiveFileName = Except.ok csum →
      (localArchiveFromSpec fs specDir aus).map (fun ar => ar.Type_) =
        Except.ok ArchiveTypeUrl) := by
  have h := localArchiveFromSpec_eq fs specDir aus files archiveFileName hglob hfiles hbuilt
  refine ⟨?_, ?_, ?_⟩
  · intro hlt
    rw [h, if_pos hlt]
  · intro hge csum hsum
    rw [h, if_neg (not_lt.mpr hge), hsum]
  · intro heq csum hsum
    rw [h, if_neg (not_lt.mpr (le_of_eq heq.symm)), hsum]
    rfl

/-- Witness of C13, amended: a file of 262143 bytes, one below the limit, is a literal. -/
theorem localArchiveFromSpec_boundary_witness :
    localArchiveFromSpec (filesOfSize 262143) "specs" srcUpload =
      Except.ok { Type_ := ArchiveTypeLiteral,
                  Literal := (filesOfSize 262143).getContents "/repo/hello.py",
                  URL := "", Checksum := ⟨"", ""⟩ } :=
  (localArchiveFromSpec_boundary (filesOfSize 262143) "specs" srcUpload ["/repo/hello.py"]
    "/repo/hello.py" rfl (by decide) rfl).1 (by decide)

/-! ## Resolving `archive://` references -/

theorem mapGet_mapPut_isSome {α : Type} (m : GoMap α) (k j : String) (v : α) :
    (mapGet (mapPut m k v) j).isSome = true ↔ j = k ∨ (mapGet m j).isSome = true := by
  by_cases h : k = j
  · subst h
    simp [mapGet_mapPut_same]
  · rw [mapGet_mapPut_other m k j v h]
    constructor
    · exact Or.inr
    · rintro (h1 | h1)
      · exact absurd h1.symm h
      · exact h1

theorem mapGet_isSome_of_mem {α : Type} (m : GoMap α) (e : String × α) (he : e ∈ m) :
    (mapGet m e.1).isSome = true := by
  induction m with
  | nil => cases he
  | cons x rest ih =>
    obtain ⟨k', v'⟩ := x
    by_cases h : k' = e.1
    · simp [mapGet, h]
    · rcases List.mem_cons.mp he with h1 | h1
      · subst h1
        exact absurd rfl h
      · simpa [mapGet, h] using ih h1

theorem trimPrefix_eq_iff (s p n : String) (h : HasPrefix s p = true) :
    TrimPrefix s p = n ↔ s = p ++ n := by
  have hp : p.data <+: s.data := by
    unfold HasPrefix at h
    exact List.isPrefixOf_iff_prefix.mp h
  obtain ⟨t, ht⟩ := hp
  have hdrop : s.data.drop p.data.length = t := by
    rw [← ht, List.drop_left]
  have hs : s = String.mk (p.data ++ t) := by
    rw [ht]
  simp only [TrimPrefix, h, if_true, hdrop]
  constructor
  · intro hn
    rw [hs, ← hn]
    rfl
  · intro hn
    have h2 : s.data = p.data ++ n.data := by
      rw [hn]
      rfl
    rw [← ht] at h2
    have h3 := List.append_cancel_left h2
    rw [h3]

theorem buildArchives_ok (fs : LocalFiles) (specDir : String) (specs : List ArchiveUploadSpec)
    (m : GoMap Archive)
    (h : ∀ aus ∈ specs, ∃ ar, localArchiveFromSpec fs specDir aus = Except.ok ar) :
    ∃ af, buildArchives fs specDir specs m = Except.ok af ∧
      ∀ k, (mapGet af k).isSome = true ↔
        ((mapGet m k).isSome = true ∨ ∃ aus ∈ specs, k = ARCHIVE_URL_PREFIX ++ aus.Name) := by
  induction specs generalizing m with
  | nil => exact ⟨m, rfl, by simp⟩
  | cons aus rest ih =>
    obtain ⟨ar, har⟩ := h aus (List.mem_cons_self _ _)
    obtain ⟨af, h1, h2⟩ := ih (mapPut m (ARCHIVE_URL_PREFIX ++ aus.Name) ar)
      (fun a ha => h a (List.mem_cons_of_mem _ ha))
    refine ⟨af, by simp [buildArchives, har, h1], ?_⟩
    intro k
    rw [h2 k, mapGet_mapPut_isSome]
    simp only [List.mem_cons, exists_eq_or_imp]
    tauto

theorem uploadArchives_spec {σ S : Type} (fclient : Client σ S)
    (availableArchives : GoMap String) (entries : List (String × Archive))
    (s : ArchiveState σ) :
    (uploadArchives fclient availableArchives entries s).calls =
      s.calls ++ plannedUploads availableArchives entries ∧
    ((∀ e ∈ entries, (mapGet s.archiveFiles e.1).isSome = true) →
      ∀ k, (mapGet (uploadArchives fclient availableArchives entries s).archiveFiles k).isSome =
        (mapGet s.archiveFiles k).isSome) := by
  induction entries generalizing s with
  | nil => simp [uploadArchives, plannedUploads]
  | cons e rest ih =>
    obtain ⟨name, ar⟩ := e
    simp only [uploadArchives, plannedUploads]
    split
    · exact ⟨(ih s).1, fun h => (ih s).2 (fun e he => h e (List.mem_cons_of_mem _ he))⟩
    · split
      · refine ⟨by simpa using (ih _).1, fun h => ?_⟩
        have := (ih { s with output := s.output ++
          ["archive " ++ name ++ " exists, not uploading\n"] }).2
          (fun e he => h e (List.mem_cons_of_mem _ he))
        simpa using this
      · have key := ih { s with
          client := (fclient.createArchive ar.URL s.client).2,
          calls := s.calls ++ [ArchiveCall.createArchive ar.URL],
          output := s.output ++ ["uploading archive " ++ name ++ "\n"],
          archiveFiles := mapPut s.archiveFiles name
            (fclient.createArchive ar.URL s.client).1 }
        refine ⟨by simpa using key.1, fun h k => ?_⟩
        have hname : (mapGet s.archiveFiles name).isSome = true :=
          h (name, ar) (List.mem_cons_self _ _)
        have hput : ∀ v j, (mapGet (mapPut s.archiveFiles name v) j).isSome =
            (mapGet s.archiveFiles j).isSome := by
          intro v j
          rw [Bool.eq_iff_iff, mapGet_mapPut_isSome]
          constructor
          · rintro (h1 | h1)
            · rw [h1]; exact hname
            · exact h1
          · exact Or.inr
        have := key.2
          (fun e he => by
            simp only
            rw [hput]
            exact h e (List.mem_cons_of_mem _ he)) k
        simp only at this
        rw [hput] at this
        exact this

theorem resolveArchives_spec (archiveFiles : GoMap Archive) (ars : List Archive) :
    (resolveArchives archiveFiles ars = none ∧
      ∀ ar ∈ ars, ar.Type_ = ArchiveTypeUrl → HasPrefix ar.URL ARCHIVE_URL_PREFIX = true →
        (mapGet archiveFiles ar.URL).isSome = true) ∨
    (∃ ar ∈ ars, ar.Type_ = ArchiveTypeUrl ∧ HasPrefix ar.URL ARCHIVE_URL_PREFIX = true ∧
      mapGet archiveFiles ar.URL = none ∧
      resolveArchives archiveFiles ars =
        some ("Unknown archive name " ++ TrimPrefix ar.URL ARCHIVE_URL_PREFIX)) := by
  induction ars with
  | nil => exact Or.inl ⟨rfl, by simp⟩
  | cons ar rest ih =>
    by_cases ht : ar.Type_ = ArchiveTypeUrl
    · by_cases hp : HasPrefix ar.URL ARCHIVE_URL_PREFIX = true
      · cases hg : mapGet archiveFiles ar.URL with
        | none =>
          exact Or.inr ⟨ar, List.mem_cons_self _ _, ht, hp, hg,
            by simp [resolveArchives, ht, hp, hg]⟩
        | some v =>
          rcases ih with ⟨h1, h2⟩ | ⟨a, ha, h1, h2, h3, h4⟩
          · refine Or.inl ⟨by simp [resolveArchives, ht, hp, hg, h1], ?_⟩
            intro a ha
            rcases List.mem_cons.mp ha with h | h
            · subst h
              intro _ _
              simp [hg]
            · exact h2 a h
          · exact Or.inr ⟨a, List.mem_cons_of_mem _ ha, h1, h2, h3,
              by simp [resolveArchives, ht, hp, hg, h4]⟩
      · rcases ih with ⟨h1, h2⟩ | ⟨a, ha, h1, h2, h3, h4⟩
        · refine Or.inl ⟨by simp [resolveArchives, ht, hp, h1], ?_⟩
          intro a ha
          rcases List.mem_cons.mp ha with h | h
          · subst h
            intro _ h5
            exact absurd h5 hp
          · exact h2 a h
        · exact Or.inr ⟨a, List.mem_cons_of_mem _ ha, h1, h2, h3,
            by simp [resolveArchives, ht, hp, h4]⟩
    · rcases ih with ⟨h1, h2⟩ | ⟨a, ha, h1, h2, h3, h4⟩
      · refine Or.inl ⟨by simp [resolveArchives, ht, h1], ?_⟩
        intro a ha
        rcases List.mem_cons.mp ha with h | h
        · subst h
          intro h5
          exact absurd h5 ht
        · exact h2 a h
      · exact Or.inr ⟨a, List.mem_cons_of_mem _ ha, h1, h2, h3,
          by simp [resolveArchives, ht, h4]⟩

theorem resolvePackages_spec {S : Type} (archiveFiles : GoMap Archive)
    (pkgs : List (Resource (PackageSpec S))) :
    (resolvePackages archiveFiles pkgs = none ∧
      ∀ pkg ∈ pkgs, ∀ ar ∈ [pkg.Spec.Source, pkg.Spec.Deployment],
        ar.Type_ = ArchiveTypeUrl → HasPrefix ar.URL ARCHIVE_URL_PREFIX = true →
        (mapGet archiveFiles ar.URL).isSome = true) ∨
    (∃ pkg ∈ pkgs, ∃ ar ∈ [pkg.Spec.Source, pkg.Spec.Deployment],
      ar.Type_ = ArchiveTypeUrl ∧ HasPrefix ar.URL ARCHIVE_URL_PREFIX = true ∧
      mapGet archiveFiles ar.URL = none ∧
      resolvePackages archiveFiles pkgs =
        some ("Unknown archive name " ++ TrimPrefix ar.URL ARCHIVE_URL_PREFIX)) := by
  induction pkgs with
  | nil => exact Or.inl ⟨rfl, by simp⟩
  | cons pkg rest ih =>
    rcases resolveArchives_spec archiveFiles [pkg.Spec.Source, pkg.Spec.Deployment] with
      ⟨h1, h2⟩ | ⟨a, ha, h1, h2, h3, h4⟩
    · rcases ih with ⟨g1, g2⟩ | ⟨q, hq, a, ha, g1, g2, g3, g4⟩
      · refine Or.inl ⟨by simp only [resolvePackages, h1, g1], ?_⟩
        intro q hq
        rcases List.mem_cons.mp hq with h | h
        · subst h
          exact h2
        · exact g2 q h
      · exact Or.inr ⟨q, List.mem_cons_of_mem _ hq, a, ha, g1, g2, g3,
          by simp only [resolvePackages, h1, g4]⟩
    · exact Or.inr ⟨pkg, List.mem_cons_self _ _, a, ha, h1, h2, h3,
        by simp only [resolvePackages, h4]⟩

/-- The run of `applyArchives` once the builds and the package listing have succeeded. -/
theorem applyArchives_run {σ S : Type} (fclient : Client σ S) (fs : LocalFiles)
    (range : MapRange) (specDir : String) (fr : FissionResources S) (st c : σ) (af : GoMap Archive)
    (pkgs : List (Resource (PackageSpec S)))
    (hbuild : buildArchives fs specDir fr.archiveUploadSpecs [] = Except.ok af)
    (hlist : fclient.packages.list st = (Except.ok pkgs, c)) :
    (applyArchives fclient fs range specDir fr st).err =
      resolvePackages (applyArchives fclient fs range specDir fr st).archiveFiles fr.packages ∧
    (applyArchives fclient fs range specDir fr st).calls =
      ArchiveCall.packageList :: plannedUploads (indexPackages pkgs []) (range.order af) ∧
    ∀ k, (mapGet (applyArchives fclient fs range specDir fr st).archiveFiles k).isSome =
      (mapGet af k).isSome := by
  have hu := uploadArchives_spec fclient (indexPackages pkgs []) (range.order af)
    { client := c, calls := [ArchiveCall.packageList], output := [], archiveFiles := af }
  simp only [applyArchives, hbuild, hlist]
  refine ⟨trivial, by simpa using hu.1, ?_⟩
  exact hu.2 (fun e he => mapGet_isSome_of_mem af e ((range.perm af).mem_iff.mp he))

/-- C11 as stated fails: the source archive of the declared package has the URL
`archive://nosuch`, which names no archive upload spec, but its type is left empty;
`applyArchives` returns nil. With the type `url` the same reference is fatal. -/
theorem applyArchives_untyped_reference_ignored :
    HasPrefix (refPackage "" "archive://nosuch").Spec.Source.URL ARCHIVE_URL_PREFIX = true ∧
    (refSet (refPackage "" "archive://nosuch") []).archiveUploadSpecs = [] ∧
    (applyArchives (envClient (staticKind [])) demoFiles insertionOrder "specs"
      (refSet (refPackage "" "archive://nosuch") []) ()).err = none ∧
    (applyArchives (envClient (staticKind [])) demoFiles insertionOrder "specs"
      (refSet (refPackage "url" "archive://nosuch") []) ()).err =
      some "Unknown archive name nosuch" := by
  decide

/-- C11, amended. When every archive build and the package listing succeed:
`applyArchives` returns the error `Unknown archive name <name>` of such a reference if
some declared package has a Source or Deployment archive of type `url` whose URL begins
with `archive://` and whose name is the Name of no archive upload spec of the resource
set; it returns nil if every such reference names an archive upload spec. -/
theorem applyArchives_unknown_archive {σ S : Type} (fclient : Client σ S) (fs : LocalFiles)
    (range : MapRange) (specDir : String) (fr : FissionResources S) (st c : σ)
    (pkgs : List (Resource (PackageSpec S)))
    (hbuild : ∀ aus ∈ fr.archiveUploadSpecs,
      ∃ ar, localArchiveFromSpec fs specDir aus = Except.ok ar)
    (hlist : fclient.packages.list st = (Except.ok pkgs, c)) :
    ((∃ pkg ∈ fr.packages, ∃ ar ∈ [pkg.Spec.Source, pkg.Spec.Deployment],
        ar.Type_ = ArchiveTypeUrl ∧ HasPrefix ar.URL ARCHIVE_URL_PREFIX = true ∧
        ∀ aus ∈ fr.archiveUploadSpecs, aus.Name ≠ TrimPrefix ar.URL ARCHIVE_URL_PREFIX) →
      ∃ pkg ∈ fr.packages, ∃ ar ∈ [pkg.Spec.Source, pkg.Spec.Deployment],
        ar.Type_ = ArchiveTypeUrl ∧ HasPrefix ar.URL ARCHIVE_URL_PREFIX = true ∧
        (∀ aus ∈ fr.archiveUploadSpecs, aus.Name ≠ TrimPrefix ar.URL ARCHIVE_URL_PREFIX) ∧
        (applyArchives fclient fs range specDir fr st).err =
          some ("Unknown archive name " ++ TrimPrefix ar.URL ARCHIVE_URL_PREFIX)) ∧
    ((∀ pkg ∈ fr.packages, ∀ ar ∈ [pkg.Spec.Source, pkg.Spec.Deployment],
        ar.Type_ = ArchiveTypeUrl → HasPrefix ar.URL ARCHIVE_URL_PREFIX = true →
        ∃ aus ∈ fr.archiveUploadSpecs, aus.Name = TrimPrefix ar.URL ARCHIVE_URL_PREFIX) →
      (applyArchives fclient fs range specDir fr st).err = none) := by
  obtain ⟨af, hb, hkeys⟩ := buildArchives_ok fs specDir fr.archiveUploadSpecs [] hbuild
  obtain ⟨herr, _, hsame⟩ := applyArchives_run fclient fs range specDir fr st c af pkgs hb hlist
  have hbound : ∀ ar : Archive, HasPrefix ar.URL ARCHIVE_URL_PREFIX = true →
      ((mapGet (applyArchives fclient fs range specDir fr st).archiveFiles ar.URL).isSome = true ↔
        ∃ aus ∈ fr.archiveUploadSpecs, aus.Name = TrimPrefix ar.URL ARCHIVE_URL_PREFIX) := by
    intro ar hp
    rw [hsame, hkeys]
    simp only [mapGet, Option.isSome_none, Bool.false_eq_true, false_or]
    constructor
    · rintro ⟨aus, ha, he⟩
      exact ⟨aus, ha, ((trimPrefix_eq_iff _ _ _ hp).mpr he).symm⟩
    · rintro ⟨aus, ha, he⟩
      exact ⟨aus, ha, (trimPrefix_eq_iff _ _ _ hp).mp he.symm⟩
  rcases resolvePackages_spec (applyArchives fclient fs range specDir fr st).archiveFiles fr.packages
    with ⟨h1, h2⟩ | ⟨pkg, hpkg, ar, har, h1, h2, h3, h4⟩
  · constructor
    · rintro ⟨pkg, hpkg, ar, har, ht, hp, hno⟩
      obtain ⟨aus, ha, he⟩ := (hbound ar hp).mp (h2 pkg hpkg ar har ht hp)
      exact absurd he (hno aus ha)
    · intro _
      rw [herr, h1]
  · have hno : ∀ aus ∈ fr.archiveUploadSpecs,
        aus.Name ≠ TrimPrefix ar.URL ARCHIVE_URL_PREFIX := by
      intro aus ha he
      have := (hbound ar h2).mpr ⟨aus, ha, he⟩
      rw [h3] at this
      cases this
    constructor
    · intro _
      exact ⟨pkg, hpkg, ar, har, h1, h2, hno, by rw [herr, h4]⟩
    · intro hall
      obtain ⟨aus, ha, he⟩ := hall pkg hpkg ar har h1 h2
      exact absurd he (hno aus ha)

/-- Witness of C11, amended: the one reference of `archiveSet` names the archive upload
spec `src`, and `applyArchives` returns nil. -/
theorem applyArchives_unknown_archive_witness :
    (applyArchives (envClient (staticKind [])) demoFiles insertionOrder "specs" archiveSet ()).err = none :=
  (applyArchives_unknown_archive (envClient (staticKind [])) demoFiles insertionOrder "specs" archiveSet
    () () []
    (fun aus h => by
      have h2 : aus = srcUpload := by simpa [archiveSet, srcUpload] using h
      rw [h2]
      exact ⟨_, rfl⟩)
    rfl).2 (by decide)

/-! ## The content index and the uploads -/

theorem indexArchives_isSome (ars : List Archive) (m : GoMap String) (sum : String) :
    (mapGet (indexArchives ars m) sum).isSome = true ↔
      ((mapGet m sum).isSome = true ∨
        ∃ ar ∈ ars, ar.Type_ = ArchiveTypeUrl ∧ ar.URL.length > 0 ∧ ar.Checksum.Sum = sum) := by
  induction ars generalizing m with
  | nil => simp [indexArchives]
  | cons ar rest ih =>
    simp only [indexArchives]
    split
    · rename_i h
      rw [ih, mapGet_mapPut_isSome]
      simp only [List.mem_cons, exists_eq_or_imp]
      constructor
      · rintro ((h1 | h1) | h1)
        · exact Or.inr (Or.inl ⟨h.1, h.2, h1.symm⟩)
        · exact Or.inl h1
        · exact Or.inr (Or.inr h1)
      · rintro (h1 | ⟨_, _, h1⟩ | h1)
        · exact Or.inl (Or.inr h1)
        · exact Or.inl (Or.inl h1.symm)
        · exact Or.inr h1
    · rename_i h
      rw [ih]
      simp only [List.mem_cons, exists_eq_or_imp]
      constructor
      · rintro (h1 | h1)
        · exact Or.inl h1
        · exact Or.inr (Or.inr h1)
      · rintro (h1 | ⟨h1, h2, _⟩ | h1)
        · exact Or.inl h1
        · exact absurd ⟨h1, h2⟩ h
        · exact Or.inr h1

theorem indexPackages_isSome {S : Type} (pkgs : List (Resource (PackageSpec S)))
    (m : GoMap String) (sum : String) :
    (mapGet (indexPackages pkgs m) sum).isSome = true ↔
      ((mapGet m sum).isSome = true ∨
        ∃ pkg ∈ pkgs, ∃ ar ∈ [pkg.Spec.Source, pkg.Spec.Deployment],
          ar.Type_ = ArchiveTypeUrl ∧ ar.URL.length > 0 ∧ ar.Checksum.Sum = sum) := by
  induction pkgs generalizing m with
  | nil => simp [indexPackages]
  | cons pkg rest ih =>
    simp only [indexPackages]
    rw [ih, indexArchives_isSome]
    constructor
    · rintro ((h1 | h1) | ⟨q, hq, h1⟩)
      · exact Or.inl h1
      · exact Or.inr ⟨pkg, List.mem_cons_self _ _, h1⟩
      · exact Or.inr ⟨q, List.mem_cons_of_mem _ hq, h1⟩
    · rintro (h1 | ⟨q, hq, h1⟩)
      · exact Or.inl (Or.inl h1)
      · rcases List.mem_cons.mp hq with h | h
        · subst h
          exact Or.inl (Or.inr h1)
        · exact Or.inr ⟨q, h, h1⟩

theorem plannedUploads_append (availableArchives : GoMap String)
    (l1 l2 : List (String × Archive)) :
    plannedUploads availableArchives (l1 ++ l2) =
      plannedUploads availableArchives l1 ++ plannedUploads availableArchives l2 := by
  induction l1 with
  | nil => rfl
  | cons e rest ih =>
    obtain ⟨name, ar⟩ := e
    simp only [List.cons_append, plannedUploads]
    split
    · exact ih
    · split
      · exact ih
      · simp [ih]

theorem mem_plannedUploads (availableArchives : GoMap String)
    (entries : List (String × Archive)) (x : ArchiveCall)
    (hx : x ∈ plannedUploads availableArchives entries) :
    ∃ e ∈ entries, x = ArchiveCall.createArchive e.2.URL ∧ e.2.Type_ ≠ ArchiveTypeLiteral ∧
      mapGet availableArchives e.2.Checksum.Sum = none := by
  induction entries with
  | nil => simp [plannedUploads] at hx
  | cons e rest ih =>
    obtain ⟨name, ar⟩ := e
    simp only [plannedUploads] at hx
    split at hx
    · obtain ⟨e, he, h⟩ := ih hx
      exact ⟨e, List.mem_cons_of_mem _ he, h⟩
    · rename_i hlit
      split at hx
      · obtain ⟨e, he, h⟩ := ih hx
        exact ⟨e, List.mem_cons_of_mem _ he, h⟩
      · rename_i hnone
        rcases List.mem_cons.mp hx with h | h
        · exact ⟨(name, ar), List.mem_cons_self _ _, h, hlit, hnone⟩
        · obtain ⟨e, he, h2⟩ := ih h
          exact ⟨e, List.mem_cons_of_mem _ he, h2⟩

/-- C12 as stated fails: the local archive `src` is of URL kind and its checksum sum
`ab` is that of the URL-typed source archive of a server-side package, but that archive
has an empty URL, which the content index leaves out: the archive is uploaded, under
every range order. -/
theorem applyArchives_uploads_when_server_url_empty :
    (localArchiveFromSpec (filesOfSize 300000) "specs" srcUpload).map
        (fun ar => (ar.Type_, ar.Checksum.Sum)) = Except.ok (ArchiveTypeUrl, "ab") ∧
    (storedPackage "" "ab").Spec.Source.Type_ = ArchiveTypeUrl ∧
    (storedPackage "" "ab").Spec.Source.Checksum.Sum = "ab" ∧
    (applyArchives (packageClient [storedPackage "" "ab"]) (filesOfSize 300000)
        insertionOrder "specs" archiveSet ()).calls =
      [ArchiveCall.packageList, ArchiveCall.createArchive "/repo/hello.py"] ∧
    (∀ range : MapRange,
      (applyArchives (packageClient [storedPackage "" "ab"]) (filesOfSize 300000)
          range "specs" archiveSet ()).calls =
        [ArchiveCall.packageList, ArchiveCall.createArchive "/repo/hello.py"]) :=
  ⟨rfl, rfl, rfl, by decide, fun range => by
    rw [applyArchives_one_entry (packageClient [storedPackage "" "ab"]) (filesOfSize 300000)
      range "specs" archiveSet ()
      ("archive://src", ⟨ArchiveTypeUrl, none, "/repo/hello.py", ⟨"sha256", "ab"⟩⟩) rfl]
    decide⟩

/-- The dedup branch keeps the local path. The local archive `src` matches the source
archive of a server-side package at `http://store/hello`: nothing is uploaded, and the
entry of the archive map still has the URL `/repo/hello.py`, since the code assigns the
server URL to a copy of the entry. -/
theorem applyArchives_dedup_keeps_local_path :
    (applyArchives (packageClient [storedPackage "http://store/hello" "ab"])
        (filesOfSize 300000) insertionOrder "specs" archiveSet ()).calls =
      [ArchiveCall.packageList] ∧
    (applyArchives (packageClient [storedPackage "http://store/hello" "ab"])
        (filesOfSize 300000) insertionOrder "specs" archiveSet ()).archiveFiles =
      [("archive://src",
        { Type_ := ArchiveTypeUrl, Literal := none, URL := "/repo/hello.py",
          Checksum := ⟨"sha256", "ab"⟩ })] ∧
    (applyArchives (packageClient [storedPackage "http://store/hello" "ab"])
        (filesOfSize 300000) insertionOrder "specs" archiveSet ()).output =
      ["archive archive://src exists, not uploading\n"] ∧
    (∀ range : MapRange,
      (applyArchives (packageClient [storedPackage "http://store/hello" "ab"])
          (filesOfSize 300000) range "specs" archiveSet ()).archiveFiles =
        [("archive://src",
          { Type_ := ArchiveTypeUrl, Literal := none, URL := "/repo/hello.py",
            Checksum := ⟨"sha256", "ab"⟩ })]) :=
  ⟨by decide, by decide, by decide, fun range => by
    rw [applyArchives_one_entry (packageClient [storedPackage "http://store/hello" "ab"])
      (filesOfSize 300000) range "specs" archiveSet ()
      ("archive://src", ⟨ArchiveTypeUrl, none, "/repo/hello.py", ⟨"sha256", "ab"⟩⟩) rfl]
    decide⟩

/-- C12, amended. Once the archives are built into the map `af` and the packages are
listed, whatever the order in which the upload loop ranges over `af`: for an entry that
is a literal, or whose checksum sum is that of a URL-typed Source or Deployment archive
with a non-empty URL of a server-side package, no upload is made, the calls being the
listing followed by the uploads of the entries visited before it and of those visited
after it; and every upload that is made is that of an entry of `af` that is not a
literal and has no such match. -/
theorem applyArchives_dedup {σ S : Type} (fclient : Client σ S) (fs : LocalFiles)
    (range : MapRange) (specDir : String) (fr : FissionResources S) (st c : σ)
    (af : GoMap Archive) (pkgs : List (Resource (PackageSpec S)))
    (hbuild : buildArchives fs specDir fr.archiveUploadSpecs [] = Except.ok af)
    (hlist : fclient.packages.list st = (Except.ok pkgs, c)) :
    (∀ pre e post, range.order af = pre ++ e :: post →
      (e.2.Type_ = ArchiveTypeLiteral ∨
        ∃ pkg ∈ pkgs, ∃ ar ∈ [pkg.Spec.Source, pkg.Spec.Deployment],
          ar.Type_ = ArchiveTypeUrl ∧ ar.URL.length > 0 ∧
          ar.Checksum.Sum = e.2.Checksum.Sum) →
      (applyArchives fclient fs range specDir fr st).calls =
        ArchiveCall.packageList :: plannedUploads (indexPackages pkgs []) (pre ++ post)) ∧
    (∀ path, ArchiveCall.createArchive path ∈
        (applyArchives fclient fs range specDir fr st).calls →
      ∃ e ∈ af, e.2.URL = path ∧ e.2.Type_ ≠ ArchiveTypeLiteral ∧
        ¬ ∃ pkg ∈ pkgs, ∃ ar ∈ [pkg.Spec.Source, pkg.Spec.Deployment],
          ar.Type_ = ArchiveTypeUrl ∧ ar.URL.length > 0 ∧
          ar.Checksum.Sum = e.2.Checksum.Sum) := by
  obtain ⟨_, hcalls, _⟩ :=
    applyArchives_run fclient fs range specDir fr st c af pkgs hbuild hlist
  have hidx : ∀ sum, (mapGet (indexPackages pkgs []) sum).isSome = true ↔
      ∃ pkg ∈ pkgs, ∃ ar ∈ [pkg.Spec.Source, pkg.Spec.Deployment],
        ar.Type_ = ArchiveTypeUrl ∧ ar.URL.length > 0 ∧ ar.Checksum.Sum = sum := by
    intro sum
    rw [indexPackages_isSome]
    simp [mapGet]
  constructor
  · intro pre e post haf hskip
    obtain ⟨name, ar⟩ := e
    rw [hcalls, haf, plannedUploads_append, plannedUploads_append]
    have hone : plannedUploads (indexPackages pkgs []) ((name, ar) :: post) =
        plannedUploads (indexPackages pkgs []) post := by
      simp only [plannedUploads]
      split
      · rfl
      · rename_i hlit
        rcases hskip with h | h
        · exact absurd h hlit
        · have := (hidx ar.Checksum.Sum).mpr h
          split
          · rfl
          · rename_i hnone
            rw [hnone] at this
            cases this
    rw [hone]
  · intro path hmem
    rw [hcalls] at hmem
    rcases List.mem_cons.mp hmem with h | h
    · cases h
    · obtain ⟨e, he, h1, h2, h3⟩ := mem_plannedUploads _ _ _ h
      refine ⟨e, (range.perm af).mem_iff.mp he, ?_, h2, ?_⟩
      · injection h1 with h4
        exact h4.symm
      · intro hex
        have := (hidx e.2.Checksum.Sum).mpr hex
        rw [h3] at this
        cases this

/-- Witness of C12, amended: two archives are built; under the range that visits them in
reverse, the second, `big`, matches a server-side archive at `http://store/big` and is
skipped, and the only upload is that of `src`. -/
theorem applyArchives_dedup_witness :
    (applyArchives (packageClient [storedPackage "http://store/big" "cd"]) twoFiles
        reverseOrder "specs" twoArchiveSet ()).calls =
      ArchiveCall.packageList ::
        plannedUploads (indexPackages [storedPackage "http://store/big" "cd"] [])
          ([] ++ [("archive://src",
            { Type_ := ArchiveTypeUrl, Literal := none, URL := "/repo/hello.py",
              Checksum := ⟨"sha256", "ab"⟩ })]) :=
  (applyArchives_dedup (packageClient [storedPackage "http://store/big" "cd"]) twoFiles
    reverseOrder "specs" twoArchiveSet () ()
    [("archive://src",
      { Type_ := ArchiveTypeUrl, Literal := none, URL := "/repo/hello.py",
        Checksum := ⟨"sha256", "ab"⟩ }),
     ("archive://big",
      { Type_ := ArchiveTypeUrl, Literal := none, URL := "/repo/big.bin",
        Checksum := ⟨"sha256", "cd"⟩ })]
    [storedPackage "http://store/big" "cd"] rfl rfl).1 []
    ("archive://big",
      { Type_ := ArchiveTypeUrl, Literal := none, URL := "/repo/big.bin",
        Checksum := ⟨"sha256", "cd"⟩ })
    [("archive://src",
      { Type_ := ArchiveTypeUrl, Literal := none, URL := "/repo/hello.py",
        Checksum := ⟨"sha256", "ab"⟩ })] rfl
    (Or.inr (by decide))

/-! ## The spec loader -/

/-- C14. Unknown kinds are never fatal: for a document whose kind, as read into the
envelope, is none of the nine known kinds (an empty kind included), `parseYaml` returns
nil, leaves the resource set as it was and prints one warning. -/
theorem parseYaml_unknown_kind {S : Type} (y : YamlDecoder S) (path : String)
    (b : List UInt8) (fr : FissionResources S)
    (hk : (y.objkind b).1.Kind ∉ ["Package", "Function", "Environment", "HTTPTrigger",
      "KubernetesWatchTrigger", "TimeTrigger", "MessageQueueTrigger", "DeploymentConfig",
      "ArchiveUploadSpec"]) :
    (parseYaml y path b fr).err = none ∧ (parseYaml y path b fr).fr = fr ∧
    (parseYaml y path b fr).warnings =
      ["Ignoring unknown type " ++ (y.objkind b).1.Kind ++ " in " ++ path] := by
  simp only [List.mem_cons, List.mem_singleton, not_or, List.mem_nil_iff, or_false] at hk
  obtain ⟨h1, h2, h3, h4, h5, h6, h7, h8, h9⟩ := hk
  simp [parseYaml, h1, h2, h3, h4, h5, h6, h7, h8, h9]

/-- Witness of C14: a document of kind `ConfigMap`, and a document with an empty kind. -/
theorem parseYaml_unknown_kind_witness :
    ((parseYaml (fixedDecoder "ConfigMap" true) "specs/cm.yaml" [] (envSet [])).err = none ∧
      (parseYaml (fixedDecoder "ConfigMap" true) "specs/cm.yaml" [] (envSet [])).fr =
        envSet [] ∧
      (parseYaml (fixedDecoder "ConfigMap" true) "specs/cm.yaml" [] (envSet [])).warnings =
        ["Ignoring unknown type " ++
          ((fixedDecoder "ConfigMap" true).objkind []).1.Kind ++ " in " ++ "specs/cm.yaml"]) ∧
    (parseYaml (fixedDecoder "" true) "specs/cm.yaml" [] (envSet [])).err = none :=
  ⟨parseYaml_unknown_kind (fixedDecoder "ConfigMap" true) "specs/cm.yaml" [] (envSet [])
      (by decide),
    (parseYaml_unknown_kind (fixedDecoder "" true) "specs/cm.yaml" [] (envSet [])
      (by decide)).1⟩

/-- C15. Kind dispatch keeps one ordered list per kind: a document of one of the eight
list kinds that parses is appended at the end of the list of its kind and nothing else
of the resource set changes; a `DeploymentConfig` document that parses replaces the
deployment config and changes no list, so that of two such documents the second is
kept; a document of a known kind that fails to parse makes `parseYaml` return that
error and leaves the resource set as it was. -/
theorem parseYaml_dispatch {S : Type} (y : YamlDecoder S) (path : String) (b : List UInt8)
    (fr : FissionResources S) :
    ((y.objkind b).1.Kind = "Package" → ∀ v, y.package b = Except.ok v →
      (parseYaml y path b fr).err = none ∧
      (parseYaml y path b fr).fr = { fr with packages := fr.packages ++ [v] }) ∧
    ((y.objkind b).1.Kind = "Function" → ∀ v, y.function b = Except.ok v →
      (parseYaml y path b fr).err = none ∧
      (parseYaml y path b fr).fr = { fr with functions := fr.functions ++ [v] }) ∧
    ((y.objkind b).1.Kind = "Environment" → ∀ v, y.environment b = Except.ok v →
      (parseYaml y path b fr).err = none ∧
      (parseYaml y path b fr).fr = { fr with environments := fr.environments ++ [v] }) ∧
    ((y.objkind b).1.Kind = "HTTPTrigger" → ∀ v, y.httpTrigger b = Except.ok v →
      (parseYaml y path b fr).err = none ∧
      (parseYaml y path b fr).fr = { fr with httpTriggers := fr.httpTriggers ++ [v] }) ∧
    ((y.objkind b).1.Kind = "KubernetesWatchTrigger" → ∀ v, y.kubernetesWatchTrigger b = Except.ok v →
      (parseYaml y path b fr).err = none ∧
      (parseYaml y path b fr).fr = { fr with kubernetesWatchTriggers := fr.kubernetesWatchTriggers ++ [v] }) ∧
    ((y.objkind b).1.Kind = "TimeTrigger" → ∀ v, y.timeTrigger b = Except.ok v →
      (parseYaml y path b fr).err = none ∧
      (parseYaml y path b fr).fr = { fr with timeTriggers := fr.timeTriggers ++ [v] }) ∧
    ((y.objkind b).1.Kind = "MessageQueueTrigger" → ∀ v, y.messageQueueTrigger b = Except.ok v →
      (parseYaml y path b fr).err = none ∧
      (parseYaml y path b fr).fr = { fr with messageQueueTriggers := fr.messageQueueTriggers ++ [v] }) ∧
    ((y.objkind b).1.Kind = "ArchiveUploadSpec" → ∀ v, y.archiveUploadSpec b = Except.ok v →
      (parseYaml y path b fr).err = none ∧
      (parseYaml y path b fr).fr = { fr with archiveUploadSpecs := fr.archiveUploadSpecs ++ [v] }) ∧
    ((y.objkind b).1.Kind = "DeploymentConfig" → ∀ v, y.deploymentConfig b = Except.ok v →
      (parseYaml y path b fr).err = none ∧
      (parseYaml y path b fr).fr = { fr with deploymentConfig := v } ∧
      ∀ b2 v2, (y.objkind b2).1.Kind = "DeploymentConfig" →
        y.deploymentConfig b2 = Except.ok v2 →
        (parseYaml y path b2 (parseYaml y path b fr).fr).fr = { fr with deploymentConfig := v2 }) ∧
    ((y.objkind b).1.Kind = "Package" → ∀ e, y.package b = Except.error e →
      (parseYaml y path b fr).err = some e ∧ (parseYaml y path b fr).fr = fr) ∧
    ((y.objkind b).1.Kind = "Function" → ∀ e, y.function b = Except.error e →
      (parseYaml y path b fr).err = some e ∧ (parseYaml y path b fr).fr = fr) ∧
    ((y.objkind b).1.Kind = "Environment" → ∀ e, y.environment b = Except.error e →
      (parseYaml y path b fr).err = some e ∧ (parseYaml y path b fr).fr = fr) ∧
    ((y.objkind b).1.Kind = "HTTPTrigger" → ∀ e, y.httpTrigger b = Except.error e →
      (parseYaml y path b fr).err = some e ∧ (parseYaml y path b fr).fr = fr) ∧
    ((y.objkind b).1.Kind = "KubernetesWatchTrigger" → ∀ e, y.kubernetesWatchTrigger b = Except.error e →
      (parseYaml y path b fr).err = some e ∧ (parseYaml y path b fr).fr = fr) ∧
    ((y.objkind b).1.Kind = "TimeTrigger" → ∀ e, y.timeTrigger b = Except.error e →
      (parseYaml y path b fr).err = some e ∧ (parseYaml y path b fr).fr = fr) ∧
    ((y.objkind b).1.Kind = "MessageQueueTrigger" → ∀ e, y.messageQueueTrigger b = Except.error e →
      (parseYaml y path b fr).err = some e ∧ (parseYaml y path b fr).fr = fr) ∧
    ((y.objkind b).1.Kind = "ArchiveUploadSpec" → ∀ e, y.archiveUploadSpec b = Except.error e →
      (parseYaml y path b fr).err = some e ∧ (parseYaml y path b fr).fr = fr) ∧
    ((y.objkind b).1.Kind = "DeploymentConfig" → ∀ e, y.deploymentConfig b = Except.error e →
      (parseYaml y path b fr).err = some e ∧ (parseYaml y path b fr).fr = fr) := by
  refine ⟨?_, ?_, ?_, ?_, ?_, ?_, ?_, ?_, ?_, ?_, ?_, ?_, ?_, ?_, ?_, ?_, ?_, ?_⟩
  · intro hk v hv
    simp [parseYaml, hk, hv]
  · intro hk v hv
    simp [parseYaml, hk, hv]
  · intro hk v hv
    simp [parseYaml, hk, hv]
  · intro hk v hv
    simp [parseYaml, hk, hv]
  · intro hk v hv
    simp [parseYaml, hk, hv]
  · intro hk v hv
    simp [parseYaml, hk, hv]
  · intro hk v hv
    simp [parseYaml, hk, hv]
  · intro hk v hv
    simp [parseYaml, hk, hv]
  · intro hk v hv
    refine ⟨by simp [parseYaml, hk, hv], by simp [parseYaml, hk, hv], ?_⟩
    intro b2 v2 hk2 hv2
    simp [parseYaml, hk, hv, hk2, hv2]
  · intro hk e he
    simp [parseYaml, hk, he]
  · intro hk e he
    simp [parseYaml, hk, he]
  · intro hk e he
    simp [parseYaml, hk, he]
  · intro hk e he
    simp [parseYaml, hk, he]
  · intro hk e he
    simp [parseYaml, hk, he]
  · intro hk e he
    simp [parseYaml, hk, he]
  · intro hk e he
    simp [parseYaml, hk, he]
  · intro hk e he
    simp [parseYaml, hk, he]
  · intro hk e he
    simp [parseYaml, hk, he]

/-- Witness of C15: an `Environment` document that parses is appended to the
environments of a set that already declares one, and nothing else changes. -/
theorem parseYaml_dispatch_witness :
    (parseYaml (fixedDecoder "Environment" true) "specs/env.yaml" []
        (envSet [declaredEnv "default" "js" 1])).err = none ∧
    (parseYaml (fixedDecoder "Environment" true) "specs/env.yaml" []
        (envSet [declaredEnv "default" "js" 1])).fr =
      { envSet [declaredEnv "default" "js" 1] with
        environments := (envSet [declaredEnv "default" "js" 1]).environments ++
          [declaredEnv "default" "py" 7] } :=
  (parseYaml_dispatch (fixedDecoder "Environment" true) "specs/env.yaml" []
    (envSet [declaredEnv "default" "js" 1])).2.2.1 rfl (declaredEnv "default" "py" 7) rfl

/-! ## Reconciling against a map server -/

theorem mem_serverPut {T : Type} (o r : Resource T) (st : List (Resource T))
    (h : r ∈ serverPut o st) : r ∈ st ∨ r = o := by
  unfold serverPut at h
  rcases List.mem_append.mp h with h1 | h1
  · exact Or.inl (List.mem_filter.mp h1).1
  · exact Or.inr (List.mem_singleton.mp h1)

theorem applyDesired_mapServer {S T : Type} [DecidableEq T] (fr : FissionResources S)
    (existent : GoMap (Resource T)) (declared : List (Resource T))
    (s : ApplyState (List (Resource T)) T) (r : Resource T)
    (hr : r ∈ (applyDesired mapServer fr existent declared s).2.client) :
    r ∈ s.client ∨ ∃ d ∈ declared, r = stamped fr d := by
  induction declared generalizing s with
  | nil => exact Or.inl hr
  | cons o rest ih =>
    simp only [applyDesired, mapServer] at hr
    split at hr
    · split at hr
      · rcases ih _ hr with h | ⟨d, hd, h⟩
        · exact Or.inl h
        · exact Or.inr ⟨d, List.mem_cons_of_mem _ hd, h⟩
      · rcases ih _ hr with h | ⟨d, hd, h⟩
        · rcases mem_serverPut _ _ _ h with h1 | h1
          · exact Or.inl h1
          · exact Or.inr ⟨o, List.mem_cons_self _ _, h1⟩
        · exact Or.inr ⟨d, List.mem_cons_of_mem _ hd, h⟩
    · rcases ih _ hr with h | ⟨d, hd, h⟩
      · rcases mem_serverPut _ _ _ h with h1 | h1
        · exact Or.inl h1
        · exact Or.inr ⟨o, List.mem_cons_self _ _, h1⟩
      · exact Or.inr ⟨d, List.mem_cons_of_mem _ hd, h⟩

theorem applyDeletes_mapServer {T : Type} (objs : List (Resource T))
    (s : ApplyState (List (Resource T)) T) (r : Resource T)
    (hr : r ∈ (applyDeletes mapServer objs s).2.client) : r ∈ s.client := by
  induction objs generalizing s with
  | nil => exact hr
  | cons o rest ih =>
    simp only [applyDeletes, mapServer] at hr
    split at hr
    · exact ih _ hr
    · have := ih _ hr
      exact (List.mem_filter.mp this).1

/-- A resource on the map server after a reconcile routine is on it after the first
loop. -/
theorem applyKind_mapServer_sub {S T : Type} [DecidableEq T] [Inhabited T] (label : String)
    (declared : List (Resource T)) (fr : FissionResources S) (delete : Bool)
    (st : List (Resource T)) (r : Resource T)
    (hr : r ∈ (applyKind mapServer label declared fr delete st).client) :
    r ∈ (applyDesired mapServer fr (indexObjs (ownedObjs fr st)) declared
      { client := st, calls := [Call.list], output := [], metadataMap := [], desired := [],
        numCreated := 0, numUpdated := 0, numDeleted := 0 }).2.client := by
  have hlist : (mapServer : KindClient (List (Resource T)) T).list st = (Except.ok st, st) := rfl
  simp only [applyKind, hlist] at hr
  cases hd : applyDesired mapServer fr (indexObjs (ownedObjs fr st)) declared
    { client := st, calls := [Call.list], output := [], metadataMap := [], desired := [],
      numCreated := 0, numUpdated := 0, numDeleted := 0 } with
  | mk e s1 =>
    rw [hd] at hr
    cases e with
    | some err => exact hr
    | none =>
      cases delete with
      | false => exact hr
      | true =>
        simp only [if_true] at hr
        cases hx : applyDeletes mapServer (ownedObjs fr st) s1 with
        | mk e2 s2 =>
          rw [hx] at hr
          have h2 : r ∈ s2.client := by
            cases e2 <;> exact hr
          have h3 : r ∈ (applyDeletes mapServer (ownedObjs fr st) s1).2.client := by
            rw [hx]
            exact h2
          exact applyDeletes_mapServer _ _ _ h3

/-- A resource on the map server after a reconcile routine was there before, or is a
declared resource as stamped. -/
theorem applyKind_mapServer_mem {S T : Type} [DecidableEq T] [Inhabited T] (label : String)
    (declared : List (Resource T)) (fr : FissionResources S) (delete : Bool)
    (st : List (Resource T)) (r : Resource T)
    (hr : r ∈ (applyKind mapServer label declared fr delete st).client) :
    r ∈ st ∨ ∃ d ∈ declared, r = stamped fr d :=
  applyDesired_mapServer fr (indexObjs (ownedObjs fr st)) declared
    { client := st, calls := [Call.list], output := [], metadataMap := [], desired := [],
      numCreated := 0, numUpdated := 0, numDeleted := 0 } r
    (applyKind_mapServer_sub label declared fr delete st r hr)

theorem sameKey_stamped {S T : Type} (fr : FissionResources S) (m : ObjectMeta)
    (d : Resource T) :
    sameKey m (stamped fr d).Metadata = sameKey m d.Metadata := by
  simp [sameKey, stamped, applyDeploymentConfig_eq]

theorem mapKey_of_sameKey (a b : ObjectMeta) (h : sameKey a b = true) :
    mapKey a = mapKey b := by
  simp only [sameKey, decide_eq_true_eq] at h
  simp [mapKey, h.1, h.2]

/-- One step of the first loop on the map server: the loop goes on with the rest, and
where a write is planned for the resource, on a server where the stamped resource has
taken the place of everything with its key. -/
theorem applyDesired_mapServer_cons {S T : Type} [DecidableEq T] (fr : FissionResources S)
    (existent : GoMap (Resource T)) (o : Resource T) (rest : List (Resource T))
    (s : ApplyState (List (Resource T)) T) :
    ∃ s2, (applyDesired mapServer fr existent (o :: rest) s).2.client =
        (applyDesired mapServer fr existent rest s2).2.client ∧
      (planFor existent (stamped fr o) ≠ [] → s2.client = serverPut (stamped fr o) s.client) := by
  simp only [applyDesired, mapServer, planFor, stamped]
  split
  · split
    · exact ⟨_, rfl, by simp⟩
    · exact ⟨_, rfl, fun _ => rfl⟩
  · exact ⟨_, rfl, fun _ => rfl⟩

/-- On the map server, a resource that is left after the first loop and has the
Namespace and Name of a declared resource for which a write is planned is a declared
resource as stamped. -/
theorem applyDesired_mapServer_written {S T : Type} [DecidableEq T] (fr : FissionResources S)
    (existent : GoMap (Resource T)) (declared : List (Resource T))
    (s : ApplyState (List (Resource T)) T) (r d : Resource T)
    (hr : r ∈ (applyDesired mapServer fr existent declared s).2.client)
    (hd : d ∈ declared) (hsame : sameKey r.Metadata d.Metadata = true)
    (hplan : planFor existent (stamped fr d) ≠ []) :
    ∃ w ∈ declared, r = stamped fr w := by
  induction declared generalizing s with
  | nil => cases hd
  | cons o rest ih =>
    obtain ⟨s2, h1, h2⟩ := applyDesired_mapServer_cons fr existent o rest s
    rw [h1] at hr
    rcases List.mem_cons.mp hd with h | h
    · subst h
      rcases applyDesired_mapServer fr existent rest s2 r hr with h3 | ⟨w, hw, h3⟩
      · rw [h2 hplan] at h3
        unfold serverPut at h3
        rcases List.mem_append.mp h3 with h4 | h4
        · have h5 := (List.mem_filter.mp h4).2
          rw [sameKey_stamped, hsame] at h5
          cases h5
        · exact ⟨d, List.mem_cons_self _ _, List.mem_singleton.mp h4⟩
      · exact ⟨w, List.mem_cons_of_mem _ hw, h3⟩
    · obtain ⟨w, hw, h3⟩ := ih s2 hr h
      exact ⟨w, List.mem_cons_of_mem _ hw, h3⟩

theorem foldl_found_mem {T : Type} (objs : List (Resource T)) (k : String)
    (found : Option (Resource T)) (h : ∃ x ∈ objs, mapKey x.Metadata = k) :
    ∃ e ∈ objs, mapKey e.Metadata = k ∧
      objs.foldl (fun found obj => if mapKey obj.Metadata = k then some obj else found)
        found = some e := by
  induction objs generalizing found with
  | nil =>
    obtain ⟨x, hx, _⟩ := h
    cases hx
  | cons o rest ih =>
    simp only [List.foldl_cons]
    by_cases hrest : ∃ x ∈ rest, mapKey x.Metadata = k
    · obtain ⟨e, he, hk, hf⟩ := ih (if mapKey o.Metadata = k then some o else found) hrest
      exact ⟨e, List.mem_cons_of_mem _ he, hk, hf⟩
    · obtain ⟨x, hx, hxk⟩ := h
      rcases List.mem_cons.mp hx with h1 | h1
      · subst h1
        refine ⟨x, List.mem_cons_self _ _, hxk, ?_⟩
        rw [if_pos hxk]
        apply foldl_found_absent
        intro y hy hyk
        exact hrest ⟨y, hy, hyk⟩
      · exact absurd ⟨x, h1, hxk⟩ hrest

/-- Where an owned server resource has the key, the index holds an owned server
resource with that key. -/
theorem existent_owned_mem {S T : Type} [Inhabited T] (fr : FissionResources S)
    (allObjs : List (Resource T)) (k : String)
    (h : ∃ x ∈ allObjs, hasDeploymentConfig x.Metadata fr = true ∧ mapKey x.Metadata = k) :
    ∃ e ∈ allObjs, hasDeploymentConfig e.Metadata fr = true ∧ mapKey e.Metadata = k ∧
      mapGet (indexObjs (ownedObjs fr allObjs)) k = some e := by
  obtain ⟨x, hx, hown, hxk⟩ := h
  obtain ⟨e, he, hk, hf⟩ := foldl_found_mem
    (allObjs.filter (fun o => hasDeploymentConfig o.Metadata fr)) k
    (if mapKey (Resource.zero : Resource T).Metadata = k then some Resource.zero
      else mapGet ([] : GoMap (Resource T)) k)
    ⟨x, List.mem_filter.mpr ⟨hx, by simpa using hown⟩, hxk⟩
  refine ⟨e, (List.mem_filter.mp he).1, by simpa using (List.mem_filter.mp he).2, hk, ?_⟩
  unfold indexObjs ownedObjs
  rw [mapGet_foldl_mapPut]
  simp only [List.singleton_append, List.foldl_cons]
  exact hf

/-- C16 as stated fails: the server holds the declared environment `default/py`, written
by an earlier apply of UID `uid-1` under the deployment name `old-name`, with the
declared Spec. The run succeeds with no write, with or without the delete flag, and the
resource keeps `fission-deployment-name = old-name` although the config's Name is
`demo`. -/
theorem applyKind_mapServer_keeps_old_name :
    (applyKind mapServer "Environments" [declaredEnv "default" "py" 7]
        (envSet [declaredEnv "default" "py" 7]) false
        [serverEnvNamed "default" "py" "old-name" "uid-1" 7]).err = none ∧
    (applyKind mapServer "Environments" [declaredEnv "default" "py" 7]
        (envSet [declaredEnv "default" "py" 7]) false
        [serverEnvNamed "default" "py" "old-name" "uid-1" 7]).client =
      [serverEnvNamed "default" "py" "old-name" "uid-1" 7] ∧
    (applyKind mapServer "Environments" [declaredEnv "default" "py" 7]
        (envSet [declaredEnv "default" "py" 7]) true
        [serverEnvNamed "default" "py" "old-name" "uid-1" 7]).client =
      [serverEnvNamed "default" "py" "old-name" "uid-1" 7] ∧
    sameKey (serverEnvNamed "default" "py" "old-name" "uid-1" 7).Metadata
      (declaredEnv "default" "py" 7).Metadata = true ∧
    hasDeploymentConfig (serverEnvNamed "default" "py" "old-name" "uid-1" 7).Metadata
      (envSet [declaredEnv "default" "py" 7]) = true ∧
    (serverEnvNamed "default" "py" "old-name" "uid-1" 7).Metadata.Annotations.bind
      (fun a => mapGet a FISSION_DEPLOYMENT_NAME_KEY) = some "old-name" ∧
    (envSet [declaredEnv "default" "py" 7]).deploymentConfig.Name = "demo" := by
  decide

/-- C16, amended. On a server that is a map keyed by (Namespace, Name), after any run of
the reconcile routine, for every initial server state `st`: a server-side resource `r`
that has the Namespace and Name of a declared resource `d` and carries the UID of the
config is a declared resource as stamped, and then carries `fission-deployment-name`
equal to the config's current Name, or else `r` is a resource of `st` and an owned
resource of `st` with the key of `d` has a Spec equal to that of `d`. When the owned
resources of `st` have distinct keys, that resource is `r` itself: `r.Spec = d.Spec`. -/
theorem applyKind_mapServer_annotations {S T : Type} [DecidableEq T] [Inhabited T]
    (label : String) (declared : List (Resource T)) (fr : FissionResources S)
    (delete : Bool) (st : List (Resource T)) (r d : Resource T)
    (hr : r ∈ (applyKind mapServer label declared fr delete st).client)
    (hd : d ∈ declared) (hsame : sameKey r.Metadata d.Metadata = true)
    (hown : hasDeploymentConfig r.Metadata fr = true) :
    (((∃ w ∈ declared, r = stamped fr w) ∧
        ∃ a, r.Metadata.Annotations = some a ∧
          mapGet a FISSION_DEPLOYMENT_NAME_KEY = some fr.deploymentConfig.Name ∧
          mapGet a FISSION_DEPLOYMENT_UID_KEY = some fr.deploymentConfig.UID) ∨
      (r ∈ st ∧ ∃ e ∈ st, hasDeploymentConfig e.Metadata fr = true ∧
        mapKey e.Metadata = mapKey d.Metadata ∧ e.Spec = d.Spec)) ∧
    (((st.filter (fun x => hasDeploymentConfig x.Metadata fr)).map
        (fun x => mapKey x.Metadata)).Nodup →
      ((∃ w ∈ declared, r = stamped fr w) ∧
        ∃ a, r.Metadata.Annotations = some a ∧
          mapGet a FISSION_DEPLOYMENT_NAME_KEY = some fr.deploymentConfig.Name ∧
          mapGet a FISSION_DEPLOYMENT_UID_KEY = some fr.deploymentConfig.UID) ∨
      (r ∈ st ∧ r.Spec = d.Spec)) := by
  have hstamped : (∃ w ∈ declared, r = stamped fr w) →
      ((∃ w ∈ declared, r = stamped fr w) ∧
        ∃ a, r.Metadata.Annotations = some a ∧
          mapGet a FISSION_DEPLOYMENT_NAME_KEY = some fr.deploymentConfig.Name ∧
          mapGet a FISSION_DEPLOYMENT_UID_KEY = some fr.deploymentConfig.UID) := by
    rintro ⟨w, hw, h⟩
    refine ⟨⟨w, hw, h⟩, mapPut (mapPut (w.Metadata.Annotations.getD [])
      FISSION_DEPLOYMENT_NAME_KEY fr.deploymentConfig.Name)
      FISSION_DEPLOYMENT_UID_KEY fr.deploymentConfig.UID, ?_, ?_, ?_⟩
    · rw [h]
      show (applyDeploymentConfig w.Metadata fr).Annotations = _
      rw [applyDeploymentConfig_eq]
    · rw [mapGet_mapPut_other _ _ _ _ (Ne.symm deployment_keys_ne), mapGet_mapPut_same]
    · exact mapGet_mapPut_same _ _ _
  rcases applyKind_mapServer_mem label declared fr delete st r hr with hin | hst
  · have hk := mapKey_of_sameKey _ _ hsame
    obtain ⟨e, he, heown, hek, hget⟩ :=
      existent_owned_mem fr st (mapKey d.Metadata) ⟨r, hin, hown, hk⟩
    by_cases heq : e.Spec = d.Spec
    · refine ⟨Or.inr ⟨hin, e, he, heown, hek, heq⟩, fun hkeys => Or.inr ⟨hin, ?_⟩⟩
      have h2 := existent_owned fr st r hin hown hkeys
      rw [hk, hget] at h2
      injection h2 with h3
      rw [← h3]
      exact heq
    · have hplan : planFor (indexObjs (ownedObjs fr st)) (stamped fr d) ≠ [] := by
        simp [planFor, mapKey_stamped, hget, spec_stamped, heq]
      have := hstamped (applyDesired_mapServer_written fr _ declared _ r d
        (applyKind_mapServer_sub label declared fr delete st r hr) hd hsame hplan)
      exact ⟨Or.inl this, fun _ => Or.inl this⟩
  · exact ⟨Or.inl (hstamped hst), fun _ => Or.inl (hstamped hst)⟩

/-- Witness of C16, amended: the same server, now with a changed declared Spec; the
environment on the server afterwards is the declared one as stamped, with the name
`demo`. -/
theorem applyKind_mapServer_annotations_witness :
    ((∃ w ∈ [declaredEnv "default" "py" 8],
        stamped (envSet []) (declaredEnv "default" "py" 8) = stamped (envSet []) w) ∧
      ∃ a, (stamped (envSet []) (declaredEnv "default" "py" 8)).Metadata.Annotations =
          some a ∧
        mapGet a FISSION_DEPLOYMENT_NAME_KEY = some (envSet []).deploymentConfig.Name ∧
        mapGet a FISSION_DEPLOYMENT_UID_KEY = some (envSet []).deploymentConfig.UID) ∨
    (stamped (envSet []) (declaredEnv "default" "py" 8) ∈
        [serverEnvNamed "default" "py" "old-name" "uid-1" 7] ∧
      (stamped (envSet []) (declaredEnv "default" "py" 8)).Spec =
        (declaredEnv "default" "py" 8).Spec) :=
  (applyKind_mapServer_annotations "Environments" [declaredEnv "default" "py" 8] (envSet [])
    true [serverEnvNamed "default" "py" "old-name" "uid-1" 7]
    (stamped (envSet []) (declaredEnv "default" "py" 8)) (declaredEnv "default" "py" 8)
    (by decide) (by decide) (by decide) (by decide)).2 (by decide)

/-! ## The identity key -/

theorem split_at_first_colon (l1 l2 r1 r2 : List Char) (h1 : ':' ∉ l1) (h2 : ':' ∉ l2)
    (h : l1 ++ ':' :: r1 = l2 ++ ':' :: r2) : l1 = l2 ∧ r1 = r2 := by
  induction l1 generalizing l2 with
  | nil =>
    cases l2 with
    | nil =>
      simp only [List.nil_append, List.cons.injEq, true_and] at h
      exact ⟨rfl, h⟩
    | cons c t =>
      simp only [List.nil_append, List.cons_append, List.cons.injEq] at h
      exact absurd (List.mem_cons.mpr (Or.inl h.1)) h2
  | cons c t ih =>
    cases l2 with
    | nil =>
      simp only [List.nil_append, List.cons_append, List.cons.injEq] at h
      exact absurd (List.mem_cons.mpr (Or.inl h.1.symm)) h1
    | cons c2 t2 =>
      simp only [List.cons_append, List.cons.injEq] at h
      obtain ⟨g1, g2⟩ := ih t2 (fun hm => h1 (List.mem_cons_of_mem _ hm))
        (fun hm => h2 (List.mem_cons_of_mem _ hm)) h.2
      exact ⟨by rw [h.1, g1], g2⟩

theorem mapKey_data (m : ObjectMeta) :
    (mapKey m).data = m.Namespace.data ++ ':' :: m.Name.data := by
  simp [mapKey, String.data_append]

/-- C17 as stated fails: the metadata `a:b`/`c` and `a`/`b:c` have the key `a:b:c`. -/
theorem mapKey_collision :
    mapKey { ObjectMeta.zero with Namespace := "a:b", Name := "c" } =
      mapKey { ObjectMeta.zero with Namespace := "a", Name := "b:c" } ∧
    ({ ObjectMeta.zero with Namespace := "a:b", Name := "c" } : ObjectMeta).Namespace ≠
      ({ ObjectMeta.zero with Namespace := "a", Name := "b:c" } : ObjectMeta).Namespace := by
  decide

/-- C17, amended. For two metadata values whose Namespaces hold no colon, `mapKey` gives
the same key if and only if the Namespaces are the same and the Names are the same. -/
theorem mapKey_faithful (m1 m2 : ObjectMeta) (h1 : ':' ∉ m1.Namespace.data)
    (h2 : ':' ∉ m2.Namespace.data) :
    mapKey m1 = mapKey m2 ↔ m1.Namespace = m2.Namespace ∧ m1.Name = m2.Name := by
  constructor
  · intro h
    have hd : (mapKey m1).data = (mapKey m2).data := by rw [h]
    rw [mapKey_data, mapKey_data] at hd
    obtain ⟨g1, g2⟩ := split_at_first_colon _ _ _ _ h1 h2 hd
    exact ⟨String.ext g1, String.ext g2⟩
  · rintro ⟨g1, g2⟩
    simp [mapKey, g1, g2]

/-- Witness of C17, amended: `default/py` and `default/js` have different keys. -/
theorem mapKey_faithful_witness :
    mapKey (declaredEnv "default" "py" 7).Metadata =
        mapKey (declaredEnv "default" "js" 7).Metadata ↔
      (declaredEnv "default" "py" 7).Metadata.Namespace =
          (declaredEnv "default" "js" 7).Metadata.Namespace ∧
        (declaredEnv "default" "py" 7).Metadata.Name =
          (declaredEnv "default" "js" 7).Metadata.Name :=
  mapKey_faithful (declaredEnv "default" "py" 7).Metadata
    (declaredEnv "default" "js" 7).Metadata (by decide) (by decide)

end Fission
